import Mathlib

/-! Volunteer-compute coordinator: dispatch and result verification.

A shallow embedding of `compute_share/server/main.go` (the same functions appear
unchanged in `server/main.go`).  The SQLite tables become lists of rows kept in
insertion order, every handler becomes a function from the store to a status code
and a new store, and the external libraries (base64, JSON envelope encoding,
Ed25519) are fields of `Env`, so every general statement holds for any behaviour of
these libraries.

Conventions.
* SQL statements succeed (the handlers ignore most of their errors), with two
  exceptions that the database decides: an `INSERT INTO tasks` whose id is already
  taken is refused by the primary key, and the `UPDATE` of `GetTask` is refused because
  the handler still holds its `SELECT` cursor open.
* A `REAL` column keeps `-0.0` as `+0.0` and every other decoded double bit for bit.
* SQLite `INTEGER` columns are unbounded `Int`; the 64-bit limit is never reached by
  a counter that moves by one per request.
* A Go `string` is a Lean `String`; strings that went through the JSON decoder are
  valid UTF-8.
-/

namespace Coordinator

/-! ## float64 -/

/-- An IEEE-754 binary64 value, given by its 64-bit pattern. -/
structure Float64 where
  bits : Nat
  isLt : bits < 2 ^ 64
deriving DecidableEq

namespace Float64

/-- The biased exponent field (11 bits). -/
def exponent (x : Float64) : Nat := (x.bits / 2 ^ 52) % 2 ^ 11

/-- The fraction field (52 bits). -/
def fraction (x : Float64) : Nat := x.bits % 2 ^ 52

/-- NaN: all exponent bits set and a non-zero fraction. -/
def isNaN (x : Float64) : Bool := x.exponent == 2047 && x.fraction != 0

/-- Positive or negative zero: every bit below the sign bit is clear. -/
def isZero (x : Float64) : Bool := x.bits % 2 ^ 63 == 0

/-- Go's `==` on float64: NaN equals nothing, `+0 == -0`, otherwise the bit
patterns agree.  This is also the key equality of a `map[float64]int`. -/
def feq (x y : Float64) : Bool :=
  !x.isNaN && !y.isNaN && (x.bits == y.bits || (x.isZero && y.isZero))

/-- The constant `0` of Go (`+0.0`). -/
def zero : Float64 := ⟨0, by decide⟩

/-- The double `4.0`. -/
def four : Float64 := ⟨0x4010000000000000, by decide⟩

/-- The double `5.0`. -/
def five : Float64 := ⟨0x4014000000000000, by decide⟩

/-- A quiet NaN. -/
def nan : Float64 := ⟨0x7FF8000000000000, by decide⟩

/-- The double `-0.0`. -/
def negZero : Float64 := ⟨0x8000000000000000, by decide⟩

end Float64

/-! ## Majority (main.go 786-798) -/

/-- The statement `count[v]++` on a `map[float64]int` held as an association list:
the entry whose key is `==` to `v` is incremented, and when there is none (always
the case for a NaN) a new entry with count 1 is added.  An assignment to an existing
float key stores the new key bits (the runtime updates float keys, since `+0` and
`-0` are equal keys with different bits). -/
def countIncr : List (Float64 × Nat) → Float64 → List (Float64 × Nat)
  | [], v => [(v, 1)]
  | (k, c) :: rest, v =>
    if Float64.feq k v then (v, c + 1) :: rest else (k, c) :: countIncr rest v

/-- The first loop of `Majority`: `for _, v := range values { count[v]++ }`. -/
def countMap (values : List Float64) : List (Float64 × Nat) :=
  values.foldl countIncr []

/-- The second loop of `Majority`, run over the map entries in the order given:
the first entry whose count reaches `need` is returned, else `(false, 0)`. -/
def scanCounts (need : Nat) : List (Float64 × Nat) → Bool × Float64
  | [] => (false, Float64.zero)
  | (k, v) :: rest => if v ≥ need then (true, k) else scanCounts need rest

/-- Majority vote returns (verified, majority_value). -/
def Majority (values : List Float64) : Bool × Float64 :=
  scanCounts (values.length / 2 + 1) (countMap values)

/-- The number of entries of `S` that are `==` to `v`. -/
def occurrences (v : Float64) (S : List Float64) : Nat :=
  S.countP (fun x => Float64.feq x v)

/-- The loop invariant of the first loop of `Majority` after the prefix `p` has been
read: the keys of the map are pairwise different under `==`, every entry holds a
key taken from `p` together with the number of entries of `p` equal to it, and every
entry of `p` has a key. -/
structure CountInv (m : List (Float64 × Nat)) (p : List Float64) : Prop where
  distinct : m.Pairwise (fun a b => Float64.feq a.1 b.1 = false)
  counted : ∀ e ∈ m, e.1 ∈ p ∧ e.1.isNaN = false ∧ e.2 = occurrences e.1 p
  covered : ∀ x ∈ p, ∃ e ∈ m, Float64.feq e.1 x = true

/-! ## Capability matching (main.go 766-784) -/

/-- Go's `unicode.IsSpace`: the Latin-1 cases of its switch, and above Latin-1 the
code points of the `White_Space` range table. -/
def isSpace (c : Char) : Bool :=
  let r := c.toNat
  if r ≤ 0xFF then
    r == 0x09 || r == 0x0A || r == 0x0B || r == 0x0C || r == 0x0D || r == 0x20
      || r == 0x85 || r == 0xA0
  else
    r == 0x1680 || (0x2000 ≤ r && r ≤ 0x200A) || r == 0x2028 || r == 0x2029
      || r == 0x202F || r == 0x205F || r == 0x3000

/-- Go's `strings.TrimSpace`: the string without its leading and trailing white
space. -/
def TrimSpace (s : String) : String :=
  ⟨((s.data.dropWhile isSpace).reverse.dropWhile isSpace).reverse⟩

/-- The statement `capSet[k] = struct{}{}` on a `map[string]struct{}` held as the list
of its keys. -/
def setInsert (capSet : List String) (k : String) : List String :=
  if capSet.contains k then capSet else capSet ++ [k]

/-- The loop over `required` of `matchesCapabilities`. -/
def requiredLoop (capSet : List String) : List String → Bool
  | [] => true
  | req :: rest =>
    let req := TrimSpace req
    if req == "" then requiredLoop capSet rest
    else if !capSet.contains req then false
    else requiredLoop capSet rest

/-- The function `matchesCapabilities(workerCaps, required []string) bool`. -/
def matchesCapabilities (workerCaps required : List String) : Bool :=
  if required.length == 0 then true
  else
    let capSet := workerCaps.foldl (fun m c => setInsert m (TrimSpace c)) []
    requiredLoop capSet required

/-! ## The store -/

/-- A row of table `workers`.  Column `capabilities` holds the JSON text of a string
list (the handlers never write NULL there). -/
structure WorkerRow where
  worker_id : String
  trust : Int
  token : Int
  pub_key : String
  capabilities : String
deriving DecidableEq

/-- A row of table `tasks`.  Column `required_capabilities` holds the JSON text of a
string list; `payload` may be NULL; `input` is a `REAL` column. -/
structure TaskRow where
  id : String
  operation : String
  input : Float64
  price : Int
  assigned_to : Option String
  completed : Bool
  verified : Bool
  redundancy : Int
  results_collected : Int
  kind : String
  payload : Option String
  required_capabilities : String
deriving DecidableEq

/-- A row of table `results`. -/
structure ResultRow where
  result_id : Nat
  id : String
  worker : String
  output : Float64
  verified : Bool
deriving DecidableEq

/-- The database: three tables, rows in insertion order. -/
structure Store where
  workers : List WorkerRow
  tasks : List TaskRow
  results : List ResultRow
deriving DecidableEq

/-- The database right after `ensureSchema` on a fresh file. -/
def Store.empty : Store := ⟨[], [], []⟩

/-- The trust of the row of worker `id`, when there is one. -/
def Store.trustOf (st : Store) (id : String) : Option Int :=
  (st.workers.find? (fun w => w.worker_id == id)).map (fun w => w.trust)

/-- The token balance of the row of worker `id`, when there is one. -/
def Store.tokenOf (st : Store) (id : String) : Option Int :=
  (st.workers.find? (fun w => w.worker_id == id)).map (fun w => w.token)

/-- The query `SELECT output FROM results WHERE id=?`. -/
def selectOutputs (results : List ResultRow) (id : String) : List Float64 :=
  (results.filter (fun r => r.id == id)).map (fun r => r.output)

/-- The row id an `INTEGER PRIMARY KEY AUTOINCREMENT` column gives the next row. -/
def nextResultId (results : List ResultRow) : Nat :=
  (results.map (fun r => r.result_id)).foldr max 0 + 1

/-- What a `REAL` column holds after a double has been written to it: SQLite keeps a
real without fractional part as an integer, so `-0.0` is kept as `+0.0`; every other
value is kept bit for bit (a decoded JSON body holds neither NaN nor an infinity). -/
def storedReal (x : Float64) : Float64 :=
  if x.isZero then Float64.zero else x

/-- The statement `INSERT INTO results(id,worker,output,verified) VALUES(?,?,?,0)`;
column `output` is `REAL`. -/
def insertResult (results : List ResultRow) (id worker : String) (output : Float64) :
    List ResultRow :=
  results ++ [⟨nextResultId results, id, worker, storedReal output, false⟩]

/-- The statement `UPDATE results SET verified=1 WHERE id=?`. -/
def markResultsVerified (results : List ResultRow) (id : String) : List ResultRow :=
  results.map (fun r => if r.id == id then { r with verified := true } else r)

/-- The statement `UPDATE workers SET trust = trust - 1 WHERE worker_id=?`. -/
def debitTrust (workers : List WorkerRow) (id : String) : List WorkerRow :=
  workers.map (fun w => if w.worker_id == id then { w with trust := w.trust - 1 } else w)

/-- The statement
`UPDATE workers SET trust = trust + 1, token = token + 1 WHERE worker_id=?`. -/
def creditWorker (workers : List WorkerRow) (id : String) : List WorkerRow :=
  workers.map (fun w =>
    if w.worker_id == id then { w with trust := w.trust + 1, token := w.token + 1 } else w)

/-- The statement `UPDATE tasks SET completed=1, verified=1 WHERE id=?`. -/
def finalizeTask (tasks : List TaskRow) (id : String) : List TaskRow :=
  tasks.map (fun t => if t.id == id then { t with completed := true, verified := true } else t)

/-- The statement `INSERT INTO workers ... VALUES (?,10,0,?,?) ON CONFLICT(worker_id)
DO UPDATE SET pub_key=excluded.pub_key, capabilities=excluded.capabilities`. -/
def upsertWorker (workers : List WorkerRow) (id pubKey capsJSON : String) :
    List WorkerRow :=
  if workers.any (fun w => w.worker_id == id) then
    workers.map (fun w =>
      if w.worker_id == id then { w with pub_key := pubKey, capabilities := capsJSON } else w)
  else workers ++ [⟨id, 10, 0, pubKey, capsJSON⟩]

/-! ## External libraries -/

/-- The library functions the handlers call.  A byte string is a list of numbers. -/
structure Env where
  /-- The call `base64.StdEncoding.DecodeString`; `none` is its error. -/
  base64Decode : String → Option (List Nat)
  /-- The call `json.Marshal` on the struct `{id, worker, output}` of `SubmitResult`. -/
  marshalEnvelope : String → String → Float64 → List Nat
  /-- The Ed25519 verification equation, on a 32-byte key and a 64-byte signature. -/
  ed25519Equation : List Nat → List Nat → List Nat → Bool
  /-- The call `json.Marshal` on a `[]string`, as text. -/
  jsonMarshalStrings : List String → String
  /-- The call `json.Unmarshal` of a text into a `[]string`; `none` is its error. -/
  jsonUnmarshalStrings : String → Option (List String)

/-- The call `ed25519.Verify(publicKey, message, sig)` for a 32-byte key (the callers
check the key length first, since the library panics otherwise): a signature that is
not 64 bytes long is refused before the equation is evaluated. -/
def ed25519Verify (env : Env) (publicKey message sig : List Nat) : Bool :=
  if sig.length ≠ 64 then false else env.ed25519Equation publicKey message sig

/-! ## Handlers -/

/-- The decoded body of `POST /register`. -/
structure RegisterBody where
  worker_id : String
  pub_key : String
  capabilities : List String
deriving DecidableEq

/-- The struct `ResultData`, the decoded body of `POST /submit_result`. -/
structure ResultData where
  id : String
  worker : String
  output : Float64
  signature : String
  pub_key : String
  kind : String
  payload : Option String
deriving DecidableEq

/-- The handler `RegisterWorker` (main.go 209-240): the status code and the new
store.  The body is what `Decode` left in the struct (its error is ignored). -/
def RegisterWorker (env : Env) (body : RegisterBody) (st : Store) : Nat × Store :=
  match env.base64Decode body.pub_key with
  | none => (400, st)
  | some pubBytes =>
    if pubBytes.length ≠ 32 then (400, st)
    else
      let capsJSON := env.jsonMarshalStrings body.capabilities
      (200, { st with
        workers := upsertWorker st.workers body.worker_id body.pub_key capsJSON })

/-- The handler `SubmitResult` (main.go 299-363): the status code and the new store.
The body is `none` when the JSON decoder fails. -/
def SubmitResult (env : Env) (body : Option ResultData) (st : Store) : Nat × Store :=
  match body with
  | none => (400, st)
  | some res =>
    match env.base64Decode res.pub_key with
    | none => (400, st)
    | some pubBytes =>
      if pubBytes.length ≠ 32 then (400, st)
      else
        match env.base64Decode res.signature with
        | none => (400, st)
        | some sigBytes =>
          let dataBytes := env.marshalEnvelope res.id res.worker res.output
          if !ed25519Verify env pubBytes dataBytes sigBytes then
            (401, { st with workers := debitTrust st.workers res.worker })
          else
            let results := insertResult st.results res.id res.worker res.output
            let outputs := selectOutputs results res.id
            let (verified, _) := Majority outputs
            if verified then
              (200, { workers := creditWorker st.workers res.worker
                      tasks := finalizeTask st.tasks res.id
                      results := markResultsVerified results res.id })
            else
              (200, { st with
                workers := debitTrust st.workers res.worker
                results := results })

/-- A submission passes the admission checks of `SubmitResult`: key and signature
decode, the key has 32 bytes, and `ed25519.Verify` accepts the signature over the
envelope under the key carried by the submission. -/
def signatureValid (env : Env) (res : ResultData) : Bool :=
  match env.base64Decode res.pub_key, env.base64Decode res.signature with
  | some pubBytes, some sigBytes =>
    pubBytes.length == 32 &&
      ed25519Verify env pubBytes (env.marshalEnvelope res.id res.worker res.output) sigBytes
  | _, _ => false

/-- The function `parseCapabilityJSON` (main.go 755-764). -/
def parseCapabilityJSON (env : Env) (raw : String) : List String :=
  if TrimSpace raw == "" then []
  else
    match env.jsonUnmarshalStrings raw with
    | none => []
    | some caps => caps

/-- The function `loadWorkerCapabilities` (main.go 625-638); `none` is its error
"worker not found". -/
def loadWorkerCapabilities (env : Env) (st : Store) (workerID : String) :
    Option (List String) :=
  match st.workers.find? (fun w => w.worker_id == workerID) with
  | none => none
  | some w =>
    if w.capabilities == "" then some []
    else some (parseCapabilityJSON env w.capabilities)

/-- The struct `Task`, the answer of `GET /get_task`. -/
structure Task where
  id : String
  operation : String
  input : Float64
  price : Int
  kind : String
  payload : Option String
  required_capabilities : List String
deriving DecidableEq

/-- The condition `completed=0 AND results_collected < redundancy` of the query of
`GetTask`. -/
def isDispatchable (t : TaskRow) : Bool :=
  !t.completed && decide (t.results_collected < t.redundancy)

/-- What the loop of `GetTask` reads from a row into the variable `task`. -/
def TaskRow.toTask (env : Env) (t : TaskRow) : Task :=
  { id := t.id, operation := t.operation, input := t.input, price := t.price,
    kind := t.kind, payload := t.payload,
    required_capabilities := parseCapabilityJSON env t.required_capabilities }

/-- The statement
`UPDATE tasks SET results_collected = results_collected + 1, assigned_to=? WHERE id=?`. -/
def assignTask (tasks : List TaskRow) (workerID id : String) : List TaskRow :=
  tasks.map (fun t =>
    if t.id == id then
      { t with results_collected := t.results_collected + 1, assigned_to := some workerID }
    else t)

/-- The outcome of a `db.Exec` on the task table issued while the handler holds a
`SELECT` cursor open: `GetTask` leaves its row loop by `break` and closes `rows` only
on return (`defer rows.Close()`), so its `UPDATE` runs on a second connection to the
database file while the first still holds the read lock; the write cannot commit,
fails with "database is locked" when the busy timeout has passed, and the handler
drops the error.  The table keeps the rows it had. -/
def execWithOpenCursor (current _written : List TaskRow) : List TaskRow :=
  current

/-- The handler `GetTask` (main.go 243-296): the status code, the task sent and the new
store.  `order` is the order `ORDER BY RANDOM()` gives the rows that satisfy the
`WHERE` clause; `LIMIT 20` keeps its first 20. -/
def GetTask (env : Env) (workerID : String) (order : List TaskRow) (st : Store) :
    Nat × Option Task × Store :=
  match loadWorkerCapabilities env st workerID with
  | none => (404, none, st)
  | some workerCaps =>
    let rows := order.take 20
    match rows.find? (fun t =>
        matchesCapabilities workerCaps (parseCapabilityJSON env t.required_capabilities)) with
    | none => (204, none, st)
    | some t =>
      (200, some (t.toTask env),
        { st with tasks := execWithOpenCursor st.tasks (assignTask st.tasks workerID t.id) })

/-- An `INSERT INTO tasks`; `none` is the error of a primary key `id` already taken. -/
def insertTask (tasks : List TaskRow) (t : TaskRow) : Option (List TaskRow) :=
  if tasks.any (fun r => r.id == t.id) then none else some (tasks ++ [t])

/-- The alphabet of `RandomString`. -/
def letters : List Char :=
  "abcdefghijklmnopqrstuvwxyzABCDEFGHIJKLMNOPQRSTUVWXYZ0123456789".data

/-- The strings `RandomString(n)` can return: `n` characters of `letters`. -/
def isRandomString (n : Nat) (s : String) : Bool :=
  s.data.length == n && s.data.all (fun c => letters.contains c)

/-- The decoded body of `POST /create_task`; `payload` is the raw JSON text of the
field, empty when the field is missing. -/
structure CreateBody where
  operation : String
  input : Float64
  price : Int
  kind : String
  payload : String
  required_capabilities : List String
deriving DecidableEq

/-- The row `CreateTask` inserts for a decoded body and the id `RandomString(10)`
returned: kind defaults to `custom`, a negative price becomes 0, a missing payload
becomes `null`. -/
def createdRow (env : Env) (body : CreateBody) (id : String) : TaskRow :=
  let kind := if body.kind == "" then "custom" else body.kind
  let price := if body.price < 0 then 0 else body.price
  let payloadString := if body.payload.length > 0 then body.payload else "null"
  let reqCapsJSON := env.jsonMarshalStrings body.required_capabilities
  ⟨id, body.operation, storedReal body.input, price, none, false, false, 1, 0, kind,
    some payloadString, reqCapsJSON⟩

/-- The handler `CreateTask` (main.go 409-453): the status code, the id sent and the
new store.  The body is `none` when the JSON decoder fails; `id` is the value of
`RandomString(10)`. -/
def CreateTask (env : Env) (body : Option CreateBody) (id : String) (st : Store) :
    Nat × Option String × Store :=
  match body with
  | none => (400, none, st)
  | some body =>
    match insertTask st.tasks (createdRow env body id) with
    | none => (500, none, st)
    | some tasks => (201, some id, { st with tasks := tasks })

/-- The random draws of one round of the loop of `GenerateTasks`: the id, the input
and the JSON text of the payload. -/
structure GenSample where
  id : String
  input : Float64
  payload : String

/-- The operation, kind and required capabilities of round `i` of `GenerateTasks`. -/
def generateTemplate (i : Nat) : String × String × List String :=
  if i % 3 == 1 then ("factorial", "math_extended", ["math:advanced"])
  else if i % 3 == 2 then ("vector_sum", "dataset", ["math:basic", "analytics:vector"])
  else ("square", "arithmetic", ["math:basic"])

/-- The row round `i` of `GenerateTasks` inserts. -/
def generatedRow (env : Env) (rand : Nat → GenSample) (i : Nat) : TaskRow :=
  ⟨(rand i).id, (generateTemplate i).1, storedReal (rand i).input, 1, none, false, false, 3, 0,
    (generateTemplate i).2.1, some (rand i).payload,
    env.jsonMarshalStrings (generateTemplate i).2.2⟩

/-- Round `i` of the loop of `GenerateTasks`; a failed insert is ignored. -/
def generateStep (env : Env) (rand : Nat → GenSample) (tasks : List TaskRow) (i : Nat) :
    List TaskRow :=
  match insertTask tasks (generatedRow env rand i) with
  | none => tasks
  | some tasks' => tasks'

/-- The handler `GenerateTasks` (main.go 376-407); `rand i` holds the random draws of
round `i`. -/
def GenerateTasks (env : Env) (rand : Nat → GenSample) (st : Store) : Nat × Store :=
  (200, { st with tasks := (List.range 10).foldl (generateStep env rand) st.tasks })

/-- The struct `TaskOverview`. -/
structure TaskOverview where
  id : String
  operation : String
  kind : String
  price : Int
  assigned_to : Option String
  completed : Bool
  verified : Bool
  remaining_slots : Int
  required_capabilities : List String
  payload : Option String
deriving DecidableEq

/-- The record the loop of `TasksOverview` builds from a row. -/
def TaskRow.overview (env : Env) (t : TaskRow) : TaskOverview :=
  { id := t.id, operation := t.operation, kind := t.kind, price := t.price,
    assigned_to := t.assigned_to, completed := t.completed, verified := t.verified,
    remaining_slots :=
      if t.redundancy - t.results_collected < 0 then 0
      else t.redundancy - t.results_collected,
    required_capabilities := parseCapabilityJSON env t.required_capabilities,
    payload := t.payload }

/-- The handler `TasksOverview` (main.go 456-512): the list it encodes. -/
def TasksOverview (env : Env) (st : Store) : List TaskOverview :=
  st.tasks.map (TaskRow.overview env)

/-! ## Runs of the coordinator -/

/-- One request that can change the store, with the random choices made while it is
served. -/
inductive Action where
  | register (body : RegisterBody)
  | getTask (workerID : String) (order : List TaskRow)
  | submitResult (body : Option ResultData)
  | createTask (body : Option CreateBody) (id : String)
  | generateTasks (rand : Nat → GenSample)

/-- The random choices of a request are possible in store `st`: the order of
`GetTask` is an arrangement of the rows its query selects, and ids are values of
`RandomString`. -/
def Action.admissible (st : Store) : Action → Prop
  | .register _ => True
  | .getTask _ order => order.Perm (st.tasks.filter isDispatchable)
  | .submitResult _ => True
  | .createTask _ id => isRandomString 10 id = true
  | .generateTasks rand => ∀ i, i < 10 → isRandomString 8 (rand i).id = true

instance Action.decidableAdmissible (st : Store) :
    (a : Action) → Decidable (a.admissible st)
  | .register _ => isTrue trivial
  | .getTask _ order =>
    inferInstanceAs (Decidable (order.Perm (st.tasks.filter isDispatchable)))
  | .submitResult _ => isTrue trivial
  | .createTask _ id => inferInstanceAs (Decidable (isRandomString 10 id = true))
  | .generateTasks rand =>
    inferInstanceAs (Decidable (∀ i, i < 10 → isRandomString 8 (rand i).id = true))

/-- The store after a request, served atomically. -/
def step (env : Env) (a : Action) (st : Store) : Store :=
  match a with
  | .register body => (RegisterWorker env body st).2
  | .getTask workerID order => (GetTask env workerID order st).2.2
  | .submitResult body => (SubmitResult env body st).2
  | .createTask body id => (CreateTask env body id st).2.2
  | .generateTasks rand => (GenerateTasks env rand st).2

/-- The store after a sequence of requests. -/
def run (env : Env) : List Action → Store → Store
  | [], st => st
  | a :: rest, st => run env rest (step env a st)

/-- Every request of the sequence makes random choices possible in the store it
meets. -/
def admissibleRun (env : Env) : List Action → Store → Prop
  | [], _ => True
  | a :: rest, st => a.admissible st ∧ admissibleRun env rest (step env a st)

/-- Whether a run is admissible can be computed. -/
def decidableAdmissibleRun (env : Env) :
    (acts : List Action) → (st : Store) → Decidable (admissibleRun env acts st)
  | [], _ => isTrue trivial
  | a :: rest, st =>
    @instDecidableAnd _ _ (Action.decidableAdmissible st a)
      (decidableAdmissibleRun env rest (step env a st))

instance instDecidableAdmissibleRun (env : Env) (acts : List Action) (st : Store) :
    Decidable (admissibleRun env acts st) :=
  decidableAdmissibleRun env acts st

/-- The stores the coordinator can be in, starting from the empty database. -/
def Reachable (env : Env) (st : Store) : Prop :=
  ∃ acts, admissibleRun env acts Store.empty ∧ run env acts Store.empty = st

/-- The number of records of worker `w` for task `t` in the ledger. -/
def countRecords (w t : String) (results : List ResultRow) : Nat :=
  results.countP (fun r => r.worker == w && r.id == t)

/-- The token of worker `w` is higher in `st'` than in `st`. -/
def tokenRaised (w : String) (st st' : Store) : Bool :=
  match st.tokenOf w, st'.tokenOf w with
  | some a, some b => decide (a < b)
  | _, _ => false

/-- The number of `SubmitResult` requests of a run, served from store `st` on, that
name worker `w` and task `t` and raise the token of `w`. -/
def creditCount (env : Env) (w t : String) : List Action → Store → Nat
  | [], _ => 0
  | a :: rest, st =>
    (match a with
      | .submitResult (some res) =>
        if res.worker = w ∧ res.id = t ∧ tokenRaised w st (step env a st) = true then 1 else 0
      | _ => 0) + creditCount env w t rest (step env a st)

/-- Every signature-valid submission of the run names a worker that has a row in the
registry when the submission is served. -/
def submitsNameRegistered (env : Env) : List Action → Store → Bool
  | [], _ => true
  | a :: rest, st =>
    (match a with
      | .submitResult (some res) =>
        !signatureValid env res || st.workers.any (fun w => w.worker_id == res.worker)
      | _ => true) && submitsNameRegistered env rest (step env a st)

/-- What the requests maintain of the task table: ids are unique (primary key), the
counter of collected results stays within the redundancy, and completed tasks are
verified. -/
structure TaskInv (st : Store) : Prop where
  unique : (st.tasks.map (fun t => t.id)).Nodup
  bounded : ∀ t ∈ st.tasks, 0 ≤ t.results_collected ∧ t.results_collected ≤ t.redundancy
  verified : ∀ t ∈ st.tasks, t.completed = true → t.verified = true

/-! ## An instance of the libraries, for evaluating scenarios -/

/-- The value of a character of the standard base64 alphabet. -/
def base64Value (c : Char) : Option Nat :=
  let n := c.toNat
  if 65 ≤ n ∧ n ≤ 90 then some (n - 65)
  else if 97 ≤ n ∧ n ≤ 122 then some (n - 97 + 26)
  else if 48 ≤ n ∧ n ≤ 57 then some (n - 48 + 52)
  else if n = 43 then some 62
  else if n = 47 then some 63
  else none

/-- Decoding of padded base64 text, four characters at a time; `=` padding may only
close the last group. -/
def base64Groups : List Char → Option (List Nat)
  | [] => some []
  | a :: b :: c :: d :: rest =>
    match base64Value a, base64Value b with
    | some x, some y =>
      if c = '=' then
        if d = '=' ∧ rest.isEmpty then some [x * 4 + y / 16] else none
      else
        match base64Value c with
        | none => none
        | some z =>
          if d = '=' then
            if rest.isEmpty then some [x * 4 + y / 16, (y % 16) * 16 + z / 4] else none
          else
            match base64Value d with
            | none => none
            | some w =>
              (base64Groups rest).map
                (fun t => (x * 4 + y / 16) :: ((y % 16) * 16 + z / 4) :: ((z % 4) * 64 + w) :: t)
    | _, _ => none
  | _ => none

/-- The function `base64.StdEncoding.DecodeString`: standard alphabet, `=` padding,
carriage returns and line feeds ignored. -/
def base64StdDecode (s : String) : Option (List Nat) :=
  base64Groups (s.data.filter (fun c => c ≠ '\r' ∧ c ≠ '\n'))

/-- The character of the standard base64 alphabet with value `n`. -/
def base64Char (n : Nat) : Char :=
  "ABCDEFGHIJKLMNOPQRSTUVWXYZabcdefghijklmnopqrstuvwxyz0123456789+/".data.getD n '='

/-- Padded base64 text of a byte string, three bytes at a time. -/
def base64Encode : List Nat → List Char
  | [] => []
  | [a] => [base64Char (a / 4), base64Char ((a % 4) * 16), '=', '=']
  | [a, b] =>
    [base64Char (a / 4), base64Char ((a % 4) * 16 + b / 16), base64Char ((b % 16) * 4), '=']
  | a :: b :: c :: rest =>
    base64Char (a / 4) :: base64Char ((a % 4) * 16 + b / 16) ::
      base64Char ((b % 16) * 4 + c / 64) :: base64Char (c % 64) :: base64Encode rest

/-- A stand-in envelope encoding: the character codes of id and worker and the bit
pattern of the output. -/
def demoEnvelope (id worker : String) (output : Float64) : List Nat :=
  id.data.map Char.toNat ++ 0 :: worker.data.map Char.toNat ++ [0, output.bits]

/-- A stand-in signature scheme in which the signature of any message under a key
is the key written twice. -/
def demoEquation (publicKey _message sig : List Nat) : Bool :=
  sig == publicKey ++ publicKey

/-- The JSON text of a string: quotes and backslashes are escaped. -/
def demoQuote (s : String) : List Char :=
  '"' :: (s.data.flatMap (fun c => if c = '"' ∨ c = '\\' then ['\\', c] else [c])) ++ ['"']

/-- The JSON text of a string list, as `json.Marshal` writes it for strings in which
only quotes and backslashes need escaping. -/
def demoMarshal (caps : List String) : String :=
  ⟨'[' :: (List.intercalate [','] (caps.map demoQuote)) ++ [']']⟩

/-- A reader for the texts `demoMarshal` writes.  Modes: 0 before `[`, 1 after `[`,
2 inside a string, 3 after a backslash, 4 after a string, 5 after a comma, 6 after
`]`. -/
def demoParse : Nat → List Char → List String → List Char → Option (List String)
  | mode, _, acc, [] => if mode = 6 then some acc.reverse else none
  | mode, cur, acc, c :: cs =>
    if mode = 0 then
      if c = '[' then demoParse 1 [] acc cs else none
    else if mode = 1 then
      if c = ']' then demoParse 6 [] acc cs
      else if c = '"' then demoParse 2 [] acc cs else none
    else if mode = 2 then
      if c = '"' then demoParse 4 [] (String.mk cur.reverse :: acc) cs
      else if c = '\\' then demoParse 3 cur acc cs
      else demoParse 2 (c :: cur) acc cs
    else if mode = 3 then demoParse 2 (c :: cur) acc cs
    else if mode = 4 then
      if c = ',' then demoParse 5 [] acc cs
      else if c = ']' then demoParse 6 [] acc cs else none
    else if mode = 5 then
      if c = '"' then demoParse 2 [] acc cs else none
    else none

/-- Reading a string list back: `null` gives the empty list. -/
def demoUnmarshal (s : String) : Option (List String) :=
  if s = "null" then some [] else demoParse 0 [] [] s.data

/-- The instance of the libraries: base64 as in Go, JSON string lists as above, and
the stand-ins for the envelope encoding and for the Ed25519 equation. -/
def demoEnv : Env := ⟨base64StdDecode, demoEnvelope, demoEquation, demoMarshal, demoUnmarshal⟩

/-- The base64 text of the 32-byte key whose bytes all are the code of `c`. -/
def keyText (c : Char) : String := ⟨base64Encode (List.replicate 32 c.toNat)⟩

/-- The base64 text of the 64-byte signature that `demoEnv` accepts under the key
`keyText c`. -/
def sigText (c : Char) : String := ⟨base64Encode (List.replicate 64 c.toNat)⟩

/-- A submission signed (for `demoEnv`) under the key `keyText c`. -/
def demoSubmission (id worker : String) (output : Float64) (c : Char) : ResultData :=
  ⟨id, worker, output, sigText c, keyText c, "", none⟩

/-! ## Scenarios -/

/-- A store with task `T` of redundancy 3 without results, and workers `A`, `B`, `C`
registered with trust 10 and token 0. -/
def quorumStore : Store :=
  { workers := [⟨"A", 10, 0, keyText 'a', demoMarshal []⟩,
      ⟨"B", 10, 0, keyText 'b', demoMarshal []⟩, ⟨"C", 10, 0, keyText 'c', demoMarshal []⟩]
    tasks := [⟨"T", "square", Float64.four, 1, none, false, false, 3, 0, "arithmetic", none,
      demoMarshal ["math:basic"]⟩]
    results := [] }

/-- The store after `A`, then `B`, then `C` submit a signed output 4.0 for `T`. -/
def quorumFinal : Store :=
  let s₁ := (SubmitResult demoEnv (some (demoSubmission "T" "A" Float64.four 'a')) quorumStore).2
  let s₂ := (SubmitResult demoEnv (some (demoSubmission "T" "B" Float64.four 'b')) s₁).2
  (SubmitResult demoEnv (some (demoSubmission "T" "C" Float64.four 'c')) s₂).2

/-- The store after `A` and then `B` have submitted a signed output 4.0 for `T`. -/
def twoFoursStore : Store :=
  (SubmitResult demoEnv (some (demoSubmission "T" "B" Float64.four 'b'))
    (SubmitResult demoEnv (some (demoSubmission "T" "A" Float64.four 'a')) quorumStore).2).2

/-- The store after worker `A` registers on a fresh database. -/
def soloStore : Store :=
  (RegisterWorker demoEnv ⟨"A", keyText 'a', ["math:basic"]⟩ Store.empty).2

/-- The store after worker `W` registers with key `keyText 'a'` and then registers
again with key `keyText 'b'`. -/
def rekeyedStore : Store :=
  (RegisterWorker demoEnv ⟨"W", keyText 'b', []⟩
    (RegisterWorker demoEnv ⟨"W", keyText 'a', []⟩ Store.empty).2).2

/-- The store after a task with id `aaaaaaaaaa` has been created. -/
def createdStore : Store :=
  run demoEnv [.createTask (some ⟨"square", Float64.four, 5, "", "", []⟩) "aaaaaaaaaa"]
    Store.empty

/-- A submission naming worker `A` of `quorumStore` that carries a key of 31 bytes and a
signature of 64 bytes. -/
def shortKeySubmission : ResultData :=
  ⟨"T", "A", Float64.four, sigText 'a', ⟨base64Encode (List.replicate 31 97)⟩, "", none⟩

/-- A submission naming worker `A` of `quorumStore` that carries the 32-byte key
`keyText 'a'` and a signature of 63 bytes. -/
def shortSigSubmission : ResultData :=
  ⟨"T", "A", Float64.four, ⟨base64Encode (List.replicate 63 97)⟩, keyText 'a', "", none⟩

/-- The store after worker `A` registers with capability `math:basic` and two tasks
are created: `aaaaaaaaaa` requires `math:advanced`, `bbbbbbbbbb` requires
`math:basic`. -/
def dispatchStore : Store :=
  run demoEnv
    [.register ⟨"A", keyText 'a', ["math:basic"]⟩,
     .createTask (some ⟨"factorial", Float64.four, 1, "", "", ["math:advanced"]⟩) "aaaaaaaaaa",
     .createTask (some ⟨"square", Float64.four, 2, "", "", ["math:basic"]⟩) "bbbbbbbbbb"]
    Store.empty

/-- The row of task `aaaaaaaaaa` in `dispatchStore`. -/
def advancedRow : TaskRow :=
  ⟨"aaaaaaaaaa", "factorial", Float64.four, 1, none, false, false, 1, 0, "custom", some "null",
    demoMarshal ["math:advanced"]⟩

/-- The row of task `bbbbbbbbbb` in `dispatchStore`. -/
def basicRow : TaskRow :=
  ⟨"bbbbbbbbbb", "square", Float64.four, 2, none, false, false, 1, 0, "custom", some "null",
    demoMarshal ["math:basic"]⟩

/-! ## Facts about `==` on float64 -/

theorem Float64.bits_inj {x y : Float64} (h : x.bits = y.bits) : x = y := by
  cases x; cases y; simp only at h; subst h; rfl

theorem Float64.feq_iff (x y : Float64) :
    Float64.feq x y = true ↔
      x.isNaN = false ∧ y.isNaN = false ∧ (x = y ∨ (x.isZero = true ∧ y.isZero = true)) := by
  unfold Float64.feq
  constructor
  · intro h
    simp only [Bool.and_eq_true, Bool.not_eq_true', Bool.or_eq_true, beq_iff_eq] at h
    obtain ⟨⟨hx, hy⟩, h⟩ := h
    refine ⟨hx, hy, ?_⟩
    rcases h with h | h
    · exact Or.inl (Float64.bits_inj h)
    · exact Or.inr h
  · rintro ⟨hx, hy, h⟩
    simp only [Bool.and_eq_true, Bool.not_eq_true', Bool.or_eq_true, beq_iff_eq]
    refine ⟨⟨hx, hy⟩, ?_⟩
    rcases h with h | h
    · exact Or.inl (by rw [h])
    · exact Or.inr h

theorem Float64.feq_refl {x : Float64} (h : x.isNaN = false) : Float64.feq x x = true :=
  (Float64.feq_iff x x).2 ⟨h, h, Or.inl rfl⟩

theorem Float64.feq_symm {x y : Float64} (h : Float64.feq x y = true) :
    Float64.feq y x = true := by
  rw [Float64.feq_iff] at h ⊢
  obtain ⟨hx, hy, h⟩ := h
  refine ⟨hy, hx, ?_⟩
  rcases h with h | h
  · exact Or.inl h.symm
  · exact Or.inr ⟨h.2, h.1⟩

theorem Float64.feq_comm (x y : Float64) : Float64.feq x y = Float64.feq y x := by
  cases h : Float64.feq y x
  · cases h' : Float64.feq x y
    · rfl
    · rw [Float64.feq_symm h'] at h; cases h
  · exact Float64.feq_symm h

theorem Float64.feq_trans {x y z : Float64} (h₁ : Float64.feq x y = true)
    (h₂ : Float64.feq y z = true) : Float64.feq x z = true := by
  rw [Float64.feq_iff] at h₁ h₂ ⊢
  obtain ⟨hx, _, h₁⟩ := h₁
  obtain ⟨_, hz, h₂⟩ := h₂
  refine ⟨hx, hz, ?_⟩
  rcases h₁ with h₁ | h₁
  · subst h₁; exact h₂
  · rcases h₂ with h₂ | h₂
    · subst h₂; exact Or.inr h₁
    · exact Or.inr ⟨h₁.1, h₂.2⟩

/-- Values that are `==` occur equally often in any list. -/
theorem occurrences_congr {v w : Float64} (h : Float64.feq v w = true) (S : List Float64) :
    occurrences v S = occurrences w S := by
  unfold occurrences
  congr 1
  funext x
  cases hx : Float64.feq x w
  · cases hv : Float64.feq x v
    · rfl
    · rw [Float64.feq_trans hv h] at hx; cases hx
  · exact Float64.feq_trans hx (Float64.feq_symm h)

theorem occurrences_append_singleton (v x : Float64) (p : List Float64) :
    occurrences v (p ++ [x]) = occurrences v p + (if Float64.feq x v then 1 else 0) := by
  unfold occurrences
  rw [List.countP_append, List.countP_cons, List.countP_nil, Nat.zero_add]

/-! ## The counting loop of `Majority` -/

/-- With pairwise different keys, `count[x]++` either bumps every (that is, the one)
entry matching `x` or appends a fresh entry. -/
theorem countIncr_eq (x : Float64) (m : List (Float64 × Nat))
    (hd : m.Pairwise (fun a b => Float64.feq a.1 b.1 = false)) :
    countIncr m x =
      if m.any (fun e => Float64.feq e.1 x) then
        m.map (fun e => if Float64.feq e.1 x then (x, e.2 + 1) else e)
      else m ++ [(x, 1)] := by
  induction m with
  | nil => simp [countIncr]
  | cons e rest ih =>
    obtain ⟨k, c⟩ := e
    rw [List.pairwise_cons] at hd
    obtain ⟨hk, hrest⟩ := hd
    by_cases hkx : Float64.feq k x = true
    · have hno : ∀ e ∈ rest, Float64.feq e.1 x = false := by
        intro e he
        cases hex : Float64.feq e.1 x
        · rfl
        · have := Float64.feq_trans hkx (Float64.feq_symm hex)
          rw [hk e he] at this; cases this
      have hmap : rest.map (fun e => if Float64.feq e.1 x then (x, e.2 + 1) else e) = rest := by
        conv_rhs => rw [← List.map_id rest]
        apply List.map_congr_left
        intro e he
        simp [hno e he]
      simp only [countIncr, hkx, if_true, List.any_cons, Bool.true_or, List.map_cons, hmap]
    · have hkx' : Float64.feq k x = false := by simpa using hkx
      simp only [countIncr, hkx', Bool.false_eq_true, if_false, List.any_cons, Bool.false_or,
        List.map_cons, ih hrest]
      split <;> simp

theorem countInv_nil : CountInv [] [] :=
  ⟨List.Pairwise.nil, by simp, by simp⟩

theorem countInv_step {m : List (Float64 × Nat)} {p : List Float64} (h : CountInv m p)
    {x : Float64} (hx : x.isNaN = false) : CountInv (countIncr m x) (p ++ [x]) := by
  rw [countIncr_eq x m h.distinct]
  by_cases hany : m.any (fun e => Float64.feq e.1 x) = true
  · rw [if_pos hany]
    refine ⟨?_, ?_, ?_⟩
    · rw [List.pairwise_map]
      refine h.distinct.imp ?_
      intro a b hab
      by_cases ha : Float64.feq a.1 x = true
      · by_cases hb : Float64.feq b.1 x = true
        · have := Float64.feq_trans ha (Float64.feq_symm hb)
          rw [hab] at this; cases this
        · have hb' : Float64.feq b.1 x = false := by simpa using hb
          simp only [ha, hb', if_true, Bool.false_eq_true, if_false]
          rw [Float64.feq_comm]; exact hb'
      · have ha' : Float64.feq a.1 x = false := by simpa using ha
        by_cases hb : Float64.feq b.1 x = true
        · simp only [ha', hb, if_true, Bool.false_eq_true, if_false]
        · have hb' : Float64.feq b.1 x = false := by simpa using hb
          simp only [ha', hb', Bool.false_eq_true, if_false]
          exact hab
    · intro e he
      rw [List.mem_map] at he
      obtain ⟨e₀, he₀, rfl⟩ := he
      obtain ⟨hmem, hnan, hcnt⟩ := h.counted e₀ he₀
      by_cases ha : Float64.feq e₀.1 x = true
      · simp only [ha, if_true]
        refine ⟨by simp, hx, ?_⟩
        rw [occurrences_append_singleton, Float64.feq_refl hx, if_pos rfl, hcnt,
          occurrences_congr ha]
      · have ha' : Float64.feq e₀.1 x = false := by simpa using ha
        simp only [ha', Bool.false_eq_true, if_false]
        refine ⟨List.mem_append_left _ hmem, hnan, ?_⟩
        rw [occurrences_append_singleton, Float64.feq_comm x e₀.1, ha', hcnt]
        simp
    · intro y hy
      rw [List.mem_append, List.mem_singleton] at hy
      rcases hy with hy | rfl
      · obtain ⟨e, he, hey⟩ := h.covered y hy
        refine ⟨_, List.mem_map_of_mem _ he, ?_⟩
        by_cases ha : Float64.feq e.1 x = true
        · simp only [ha, if_true]
          exact Float64.feq_trans (Float64.feq_symm ha) hey
        · have ha' : Float64.feq e.1 x = false := by simpa using ha
          simp only [ha', Bool.false_eq_true, if_false]
          exact hey
      · rw [List.any_eq_true] at hany
        obtain ⟨e, he, hey⟩ := hany
        refine ⟨_, List.mem_map_of_mem _ he, ?_⟩
        simp only [hey, if_true]
        exact Float64.feq_refl hx
  · have hnone : ∀ e ∈ m, Float64.feq e.1 x = false := by
      intro e he
      cases hex : Float64.feq e.1 x
      · rfl
      · exact absurd (List.any_eq_true.2 ⟨e, he, hex⟩) hany
    rw [if_neg hany]
    refine ⟨?_, ?_, ?_⟩
    · rw [List.pairwise_append]
      refine ⟨h.distinct, List.pairwise_singleton _ _, ?_⟩
      intro a ha b hb
      rw [List.mem_singleton] at hb
      subst hb
      exact hnone a ha
    · intro e he
      rw [List.mem_append, List.mem_singleton] at he
      rcases he with he | rfl
      · obtain ⟨hmem, hnan, hcnt⟩ := h.counted e he
        refine ⟨List.mem_append_left _ hmem, hnan, ?_⟩
        rw [occurrences_append_singleton, Float64.feq_comm x e.1, hnone e he, hcnt]
        simp
      · refine ⟨by simp, hx, ?_⟩
        have hzero : occurrences x p = 0 := by
          unfold occurrences
          rw [List.countP_eq_zero]
          intro y hy hyx
          obtain ⟨e, he, hey⟩ := h.covered y hy
          have := Float64.feq_trans hey hyx
          rw [hnone e he] at this; cases this
        rw [occurrences_append_singleton, hzero, Float64.feq_refl hx]
        simp
    · intro y hy
      rw [List.mem_append, List.mem_singleton] at hy
      rcases hy with hy | rfl
      · obtain ⟨e, he, hey⟩ := h.covered y hy
        exact ⟨e, List.mem_append_left _ he, hey⟩
      · exact ⟨(y, 1), by simp, Float64.feq_refl hx⟩

theorem countInv_foldl (xs : List Float64) (hxs : ∀ x ∈ xs, x.isNaN = false) :
    ∀ (m : List (Float64 × Nat)) (p : List Float64), CountInv m p →
      CountInv (xs.foldl countIncr m) (p ++ xs) := by
  induction xs with
  | nil => intro m p h; simpa using h
  | cons x xs ih =>
    intro m p h
    have h' := countInv_step h (hxs x (List.mem_cons_self _ _))
    have := ih (fun y hy => hxs y (List.mem_cons_of_mem _ hy)) _ _ h'
    simpa [List.foldl_cons, List.append_assoc] using this

/-- The map built by the first loop of `Majority` on a list without NaN. -/
theorem countInv_countMap (S : List Float64) (hS : ∀ x ∈ S, x.isNaN = false) :
    CountInv (countMap S) S := by
  have := countInv_foldl S hS [] [] countInv_nil
  simpa [countMap] using this

/-- The second loop answers true exactly when some entry reaches `need`. -/
theorem scanCounts_true_iff (need : Nat) (m : List (Float64 × Nat)) :
    (scanCounts need m).1 = true ↔ ∃ e ∈ m, need ≤ e.2 := by
  induction m with
  | nil => simp [scanCounts]
  | cons e rest ih =>
    obtain ⟨k, c⟩ := e
    by_cases hc : c ≥ need
    · simp only [scanCounts, hc, if_true, true_iff]
      exact ⟨(k, c), List.mem_cons_self _ _, hc⟩
    · simp only [scanCounts, hc, if_false, ih, List.mem_cons, exists_eq_or_imp]
      constructor
      · intro h; exact Or.inr h
      · rintro (h | h)
        · exact h.elim
        · exact h

/-- On a list without NaN, `Majority` answers true exactly when some value of the
list reaches the quorum. -/
theorem majority_true_iff (S : List Float64) (hS : ∀ x ∈ S, x.isNaN = false) :
    (Majority S).1 = true ↔ ∃ v ∈ S, S.length / 2 + 1 ≤ occurrences v S := by
  have inv := countInv_countMap S hS
  unfold Majority
  rw [scanCounts_true_iff]
  constructor
  · rintro ⟨e, he, hle⟩
    obtain ⟨hmem, _, hcnt⟩ := inv.counted e he
    exact ⟨e.1, hmem, hcnt ▸ hle⟩
  · rintro ⟨v, hv, hle⟩
    obtain ⟨e, he, hev⟩ := inv.covered v hv
    refine ⟨e, he, ?_⟩
    rw [(inv.counted e he).2.2, occurrences_congr hev]
    exact hle

/-! ## Claims on `Majority` -/

/-- C1. For every list `S` of outputs without NaN, `Majority S` answers true exactly
when some value of `S` occurs in it at least `⌊|S|/2⌋ + 1` times (occurrences counted
with Go's `==`); on the empty list it answers false. -/
theorem C1_majority_iff_quorum (S : List Float64) (hS : ∀ x ∈ S, x.isNaN = false) :
    ((Majority S).1 = true ↔ ∃ v ∈ S, S.length / 2 + 1 ≤ occurrences v S) ∧
      (Majority []).1 = false :=
  ⟨majority_true_iff S hS, rfl⟩

/-- C1, at the list `[4.0, 5.0, 4.0]`. -/
theorem C1_majority_iff_quorum_witness :
    ((Majority [Float64.four, Float64.five, Float64.four]).1 = true ↔
        ∃ v ∈ [Float64.four, Float64.five, Float64.four],
          [Float64.four, Float64.five, Float64.four].length / 2 + 1 ≤
            occurrences v [Float64.four, Float64.five, Float64.four]) ∧
      (Majority []).1 = false :=
  C1_majority_iff_quorum [Float64.four, Float64.five, Float64.four] (by decide)

/-! ## Capability matching -/

/-- The keys of the set built by the first loop of `matchesCapabilities`. -/
theorem mem_capSet (workerCaps : List String) :
    ∀ (m : List String) (k : String),
      k ∈ workerCaps.foldl (fun m c => setInsert m (TrimSpace c)) m ↔
        k ∈ m ∨ ∃ w ∈ workerCaps, TrimSpace w = k := by
  induction workerCaps with
  | nil => intro m k; simp
  | cons c cs ih =>
    intro m k
    rw [List.foldl_cons, ih]
    have hins : k ∈ setInsert m (TrimSpace c) ↔ k ∈ m ∨ TrimSpace c = k := by
      unfold setInsert
      by_cases hc : m.contains (TrimSpace c) = true
      · rw [if_pos hc]
        constructor
        · exact Or.inl
        · rintro (h | h)
          · exact h
          · subst h; simpa using hc
      · rw [if_neg hc]
        simp [eq_comm]
    rw [hins]
    simp only [List.mem_cons, exists_eq_or_imp]
    tauto

/-- The second loop succeeds exactly when every non-empty trimmed requirement is a
key of the set. -/
theorem requiredLoop_iff (capSet required : List String) :
    requiredLoop capSet required = true ↔
      ∀ r ∈ required, TrimSpace r ≠ "" → TrimSpace r ∈ capSet := by
  induction required with
  | nil => simp [requiredLoop]
  | cons r rs ih =>
    simp only [requiredLoop, List.mem_cons, forall_eq_or_imp]
    by_cases hr : TrimSpace r = ""
    · simp [hr, ih]
    · by_cases hmem : TrimSpace r ∈ capSet
      · simp [hr, hmem, ih]
      · simp [hr, hmem]

theorem matchesCapabilities_iff (workerCaps required : List String) :
    matchesCapabilities workerCaps required = true ↔
      ∀ r ∈ required, TrimSpace r ≠ "" → ∃ w ∈ workerCaps, TrimSpace w = TrimSpace r := by
  unfold matchesCapabilities
  by_cases hlen : required.length = 0
  · have : required = [] := List.length_eq_zero.1 hlen
    subst this
    simp
  · have hb : (required.length == 0) = false := by simpa using hlen
    rw [hb]
    simp only [Bool.false_eq_true, if_false]
    rw [requiredLoop_iff]
    simp only [mem_capSet, List.not_mem_nil, false_or]

/-- C9. `matchesCapabilities` answers true exactly when every entry of `required`
whose trimmed form is non-empty has an entry of `workerCaps` with the same trimmed
form (exact string equality).  Hence an empty `required`, or one of blank entries
only, matches every worker, and blank entries of `workerCaps` play no role. -/
theorem C9_matchesCapabilities_spec (workerCaps required : List String) :
    (matchesCapabilities workerCaps required = true ↔
        ∀ r ∈ required, TrimSpace r ≠ "" →
          ∃ w ∈ workerCaps, TrimSpace w = TrimSpace r) ∧
      matchesCapabilities workerCaps [] = true ∧
      ((∀ r ∈ required, TrimSpace r = "") → matchesCapabilities workerCaps required = true) ∧
      matchesCapabilities (workerCaps.filter (fun w => TrimSpace w != "")) required =
        matchesCapabilities workerCaps required := by
  refine ⟨matchesCapabilities_iff _ _, rfl, ?_, ?_⟩
  · intro h
    rw [matchesCapabilities_iff]
    intro r hr hne
    exact absurd (h r hr) hne
  · rw [Bool.eq_iff_iff, matchesCapabilities_iff, matchesCapabilities_iff]
    constructor
    · intro h r hr hne
      obtain ⟨w, hw, hwr⟩ := h r hr hne
      exact ⟨w, (List.mem_filter.1 hw).1, hwr⟩
    · intro h r hr hne
      obtain ⟨w, hw, hwr⟩ := h r hr hne
      refine ⟨w, List.mem_filter.2 ⟨hw, ?_⟩, hwr⟩
      rw [← hwr] at hne
      simpa using hne

/-- C9, at a worker with a padded capability and a blank one, and a requirement list
with a padded and a blank entry. -/
theorem C9_matchesCapabilities_spec_witness :
    matchesCapabilities ["math:basic ", "  "] [" math:basic", " "] = true ∧
      matchesCapabilities ["Math:basic"] ["math:basic"] = false ∧
      matchesCapabilities [] ["\t", ""] = true :=
  ⟨(C9_matchesCapabilities_spec ["math:basic ", "  "] [" math:basic", " "]).1.2 (by decide),
   by decide,
   (C9_matchesCapabilities_spec [] ["\t", ""]).2.2.1 (by decide)⟩

/-- C10. `matchesCapabilities` is monotone in the worker list and antitone in the
required list: when every entry of `W` is in `W'` and every entry of `R` is in `R'`,
a match of `W` against `R'` gives a match of `W'` against `R`. -/
theorem C10_matchesCapabilities_monotone (W W' R R' : List String)
    (hW : ∀ w ∈ W, w ∈ W') (hR : ∀ r ∈ R, r ∈ R')
    (h : matchesCapabilities W R' = true) : matchesCapabilities W' R = true := by
  rw [matchesCapabilities_iff] at h ⊢
  intro r hr hne
  obtain ⟨w, hw, hwr⟩ := h r (hR r hr) hne
  exact ⟨w, hW w hw, hwr⟩

/-- C10, at a worker gaining a capability and a requirement list losing one. -/
theorem C10_matchesCapabilities_monotone_witness :
    matchesCapabilities ["math:basic", "analytics:vector"] ["math:basic", "analytics:vector"]
        = true ∧
      matchesCapabilities ["math:basic", "analytics:vector", "gpu"] ["analytics:vector"]
        = true :=
  ⟨by decide,
   C10_matchesCapabilities_monotone ["math:basic", "analytics:vector"]
     ["math:basic", "analytics:vector", "gpu"] ["analytics:vector"]
     ["math:basic", "analytics:vector"] (by decide) (by decide) (by decide)⟩

/-! ## Store lemmas -/

/-- A stored zero is not a NaN. -/
theorem Float64.isNaN_of_isZero {x : Float64} (h : x.isZero = true) : x.isNaN = false := by
  have hb := x.isLt
  simp only [Float64.isZero, beq_iff_eq] at h
  have he : x.exponent = 0 := by
    unfold Float64.exponent
    omega
  simp [Float64.isNaN, he]

/-- Under `==` a stored double is the double written. -/
theorem feq_storedReal_right (k x : Float64) :
    Float64.feq k (storedReal x) = Float64.feq k x := by
  unfold storedReal
  by_cases hz : x.isZero = true
  · rw [if_pos hz]
    have hx := Float64.isNaN_of_isZero hz
    have h0 : Float64.zero.isZero = true := by decide
    have hn0 : Float64.zero.isNaN = false := by decide
    rw [Bool.eq_iff_iff, Float64.feq_iff, Float64.feq_iff]
    constructor
    · rintro ⟨hk, _, h | h⟩
      · subst h; exact ⟨hk, hx, Or.inr ⟨h0, hz⟩⟩
      · exact ⟨hk, hx, Or.inr ⟨h.1, hz⟩⟩
    · rintro ⟨hk, _, h | h⟩
      · subst h; exact ⟨hk, hn0, Or.inr ⟨hz, h0⟩⟩
      · exact ⟨hk, hn0, Or.inr ⟨h.1, h0⟩⟩
  · rw [if_neg hz]

theorem feq_storedReal_left (x v : Float64) :
    Float64.feq (storedReal x) v = Float64.feq x v := by
  rw [Float64.feq_comm, feq_storedReal_right, Float64.feq_comm]

/-- A stored double that is not a NaN is `==` to the double written, and a double
other than a zero is stored bit for bit. -/
theorem storedReal_spec (x : Float64) :
    (x.isNaN = false → Float64.feq (storedReal x) x = true) ∧
      (x.isZero = false → storedReal x = x) ∧ (storedReal x).isNaN = x.isNaN := by
  refine ⟨?_, ?_, ?_⟩
  · intro hx
    rw [feq_storedReal_left]; exact Float64.feq_refl hx
  · intro hz
    simp [storedReal, hz]
  · unfold storedReal
    by_cases hz : x.isZero = true
    · rw [if_pos hz, Float64.isNaN_of_isZero hz]; decide
    · rw [if_neg hz]

/-- The counts of the map after `count[x]++` depend on `x` only through `==`. -/
theorem countIncr_counts (x y : Float64) (hxy : ∀ k, Float64.feq k x = Float64.feq k y)
    (m : List (Float64 × Nat)) :
    (countIncr m x).map Prod.snd = (countIncr m y).map Prod.snd := by
  induction m with
  | nil => rfl
  | cons e rest ih =>
    obtain ⟨k, c⟩ := e
    simp only [countIncr, ← hxy k]
    by_cases h : Float64.feq k x = true
    · simp [h]
    · simp [h, ih]

/-- The answer of the second loop depends on the counts only. -/
theorem scanCounts_fst_congr (need : Nat) (m m' : List (Float64 × Nat))
    (h : m.map Prod.snd = m'.map Prod.snd) : (scanCounts need m).1 = (scanCounts need m').1 := by
  have key : ∀ l : List (Float64 × Nat),
      ((scanCounts need l).1 = true ↔ ∃ c ∈ l.map Prod.snd, need ≤ c) := by
    intro l
    rw [scanCounts_true_iff]
    constructor
    · rintro ⟨e, he, hle⟩
      exact ⟨e.2, List.mem_map_of_mem _ he, hle⟩
    · rintro ⟨c, hc, hle⟩
      obtain ⟨e, he, rfl⟩ := List.mem_map.1 hc
      exact ⟨e, he, hle⟩
  rw [Bool.eq_iff_iff, key, key, h]

/-- The vote over the outputs read back from the ledger is the vote over the outputs
on file followed by the submitted one. -/
theorem majority_storedReal (S : List Float64) (x : Float64) :
    (Majority (S ++ [storedReal x])).1 = (Majority (S ++ [x])).1 := by
  unfold Majority countMap
  rw [List.foldl_append, List.foldl_append]
  simp only [List.foldl_cons, List.foldl_nil, List.length_append, List.length_singleton]
  exact scanCounts_fst_congr _ _ _
    (countIncr_counts _ _ (fun k => feq_storedReal_right k x) _)

theorem selectOutputs_insertResult (results : List ResultRow) (id worker : String)
    (output : Float64) :
    selectOutputs (insertResult results id worker output) id =
      selectOutputs results id ++ [storedReal output] := by
  simp [selectOutputs, insertResult, List.filter_append]

theorem selectOutputs_insertResult_ne (results : List ResultRow) (id id' worker : String)
    (output : Float64) (h : id ≠ id') :
    selectOutputs (insertResult results id worker output) id' = selectOutputs results id' := by
  simp [selectOutputs, insertResult, List.filter_append, h]

theorem selectOutputs_markResultsVerified (results : List ResultRow) (id id' : String) :
    selectOutputs (markResultsVerified results id) id' = selectOutputs results id' := by
  unfold selectOutputs markResultsVerified
  induction results with
  | nil => rfl
  | cons r rs ih =>
    by_cases h : r.id = id <;> by_cases h' : r.id = id' <;>
      simp_all [List.filter_cons]

theorem find?_map_worker (f : WorkerRow → WorkerRow)
    (hf : ∀ w, (f w).worker_id = w.worker_id) (ws : List WorkerRow) (id : String) :
    (ws.map f).find? (fun w => w.worker_id == id) =
      (ws.find? (fun w => w.worker_id == id)).map f := by
  induction ws with
  | nil => rfl
  | cons w ws ih =>
    by_cases h : w.worker_id = id
    · simp [List.find?_cons, hf, h]
    · simp [List.find?_cons, hf, h, ih]

theorem find?_worker_id {ws : List WorkerRow} {id : String} {w : WorkerRow}
    (h : ws.find? (fun w => w.worker_id == id) = some w) : w.worker_id = id := by
  have := List.find?_some h
  simpa using this

theorem trustOf_creditWorker (st st' : Store) (id id' : String)
    (h : st'.workers = creditWorker st.workers id) :
    st'.trustOf id' = (st.trustOf id').map (fun t => if id' = id then t + 1 else t) := by
  unfold Store.trustOf
  rw [h, creditWorker, find?_map_worker _ (fun w => by split <;> rfl)]
  cases hf : st.workers.find? (fun w => w.worker_id == id') with
  | none => rfl
  | some w =>
    have hw := find?_worker_id hf
    by_cases hid : id' = id
    · subst hid; simp [hw]
    · have : ¬ w.worker_id = id := fun h' => hid (hw ▸ h')
      simp [hid, this]

theorem tokenOf_creditWorker (st st' : Store) (id id' : String)
    (h : st'.workers = creditWorker st.workers id) :
    st'.tokenOf id' = (st.tokenOf id').map (fun t => if id' = id then t + 1 else t) := by
  unfold Store.tokenOf
  rw [h, creditWorker, find?_map_worker _ (fun w => by split <;> rfl)]
  cases hf : st.workers.find? (fun w => w.worker_id == id') with
  | none => rfl
  | some w =>
    have hw := find?_worker_id hf
    by_cases hid : id' = id
    · subst hid; simp [hw]
    · have : ¬ w.worker_id = id := fun h' => hid (hw ▸ h')
      simp [hid, this]

theorem trustOf_debitTrust (st st' : Store) (id id' : String)
    (h : st'.workers = debitTrust st.workers id) :
    st'.trustOf id' = (st.trustOf id').map (fun t => if id' = id then t - 1 else t) := by
  unfold Store.trustOf
  rw [h, debitTrust, find?_map_worker _ (fun w => by split <;> rfl)]
  cases hf : st.workers.find? (fun w => w.worker_id == id') with
  | none => rfl
  | some w =>
    have hw := find?_worker_id hf
    by_cases hid : id' = id
    · subst hid; simp [hw]
    · have : ¬ w.worker_id = id := fun h' => hid (hw ▸ h')
      simp [hid, this]

theorem tokenOf_debitTrust (st st' : Store) (id id' : String)
    (h : st'.workers = debitTrust st.workers id) :
    st'.tokenOf id' = st.tokenOf id' := by
  unfold Store.tokenOf
  rw [h, debitTrust, find?_map_worker _ (fun w => by split <;> rfl)]
  cases hf : st.workers.find? (fun w => w.worker_id == id') with
  | none => rfl
  | some w => by_cases hid : w.worker_id = id <;> simp [hid]

/-! ## The branches of `SubmitResult` -/

/-- What the admission checks of `SubmitResult` amount to. -/
theorem signatureValid_iff (env : Env) (res : ResultData) :
    signatureValid env res = true ↔
      ∃ pubBytes sigBytes, env.base64Decode res.pub_key = some pubBytes ∧
        pubBytes.length = 32 ∧ env.base64Decode res.signature = some sigBytes ∧
        ed25519Verify env pubBytes (env.marshalEnvelope res.id res.worker res.output) sigBytes
          = true := by
  unfold signatureValid
  cases hp : env.base64Decode res.pub_key with
  | none => simp
  | some pubBytes =>
    cases hs : env.base64Decode res.signature with
    | none => simp
    | some sigBytes => simp

/-- A submission whose signature check fails: answer 401 and debit the named worker. -/
theorem SubmitResult_bad_signature (env : Env) (res : ResultData) (st : Store)
    (pubBytes sigBytes : List Nat) (hp : env.base64Decode res.pub_key = some pubBytes)
    (hlen : pubBytes.length = 32) (hs : env.base64Decode res.signature = some sigBytes)
    (hv : ed25519Verify env pubBytes (env.marshalEnvelope res.id res.worker res.output)
      sigBytes = false) :
    SubmitResult env (some res) st =
      (401, { st with workers := debitTrust st.workers res.worker }) := by
  simp [SubmitResult, hp, hlen, hs, hv]

/-- A signature-valid submission that reaches a majority. -/
theorem SubmitResult_majority (env : Env) (res : ResultData) (st : Store)
    (hsig : signatureValid env res = true)
    (hmaj : (Majority (selectOutputs st.results res.id ++ [res.output])).1 = true) :
    SubmitResult env (some res) st =
      (200, { workers := creditWorker st.workers res.worker
              tasks := finalizeTask st.tasks res.id
              results := markResultsVerified
                (insertResult st.results res.id res.worker res.output) res.id }) := by
  obtain ⟨pubBytes, sigBytes, hp, hlen, hs, hv⟩ := (signatureValid_iff env res).1 hsig
  simp [SubmitResult, hp, hlen, hs, hv, selectOutputs_insertResult, majority_storedReal, hmaj]

/-- A signature-valid submission that reaches no majority. -/
theorem SubmitResult_no_majority (env : Env) (res : ResultData) (st : Store)
    (hsig : signatureValid env res = true)
    (hmaj : (Majority (selectOutputs st.results res.id ++ [res.output])).1 = false) :
    SubmitResult env (some res) st =
      (200, { st with
        workers := debitTrust st.workers res.worker
        results := insertResult st.results res.id res.worker res.output }) := by
  obtain ⟨pubBytes, sigBytes, hp, hlen, hs, hv⟩ := (signatureValid_iff env res).1 hsig
  simp [SubmitResult, hp, hlen, hs, hv, selectOutputs_insertResult, majority_storedReal, hmaj]

/-- A submission that fails the admission checks leaves results and tasks alone, and
the workers are either untouched (400) or debited (401). -/
theorem SubmitResult_not_valid (env : Env) (res : ResultData) (st : Store)
    (hsig : signatureValid env res = false) :
    SubmitResult env (some res) st = (400, st) ∨
      SubmitResult env (some res) st =
        (401, { st with workers := debitTrust st.workers res.worker }) := by
  unfold signatureValid at hsig
  cases hp : env.base64Decode res.pub_key with
  | none => simp [SubmitResult, hp]
  | some pubBytes =>
    cases hs : env.base64Decode res.signature with
    | none => by_cases hlen : pubBytes.length = 32 <;> simp [SubmitResult, hp, hs, hlen]
    | some sigBytes =>
      by_cases hlen : pubBytes.length = 32
      · rw [hp, hs] at hsig
        simp only [hlen, beq_self_eq_true, Bool.true_and] at hsig
        simp [SubmitResult, hp, hs, hlen, hsig]
      · simp [SubmitResult, hp, hs, hlen]

theorem forall₂_map_self {α : Type} (R : α → α → Prop) (f : α → α) (h : ∀ a, R a (f a))
    (l : List α) : List.Forall₂ R l (l.map f) := by
  induction l with
  | nil => exact List.Forall₂.nil
  | cons a l ih => exact List.Forall₂.cons (h a) ih

/-! ## Claims on `SubmitResult` -/

/-- C2 (as stated, refuted). On a fresh database worker `A` registers and submits a
signed output 4.0 for `T`: the submission is rewarded (trust 10 to 11, token 0 to 1)
although the ledger holds no record of `T` from any other worker. -/
theorem C2_counterexample :
    soloStore.trustOf "A" = some 10 ∧ soloStore.tokenOf "A" = some 0 ∧
      (SubmitResult demoEnv (some (demoSubmission "T" "A" Float64.four 'a')) soloStore).1 = 200 ∧
      (SubmitResult demoEnv (some (demoSubmission "T" "A" Float64.four 'a')) soloStore).2.trustOf "A"
        = some 11 ∧
      (SubmitResult demoEnv (some (demoSubmission "T" "A" Float64.four 'a')) soloStore).2.tokenOf "A"
        = some 1 ∧
      ¬ ∃ r ∈ (SubmitResult demoEnv (some (demoSubmission "T" "A" Float64.four 'a'))
          soloStore).2.results, r.id = "T" ∧ r.worker ≠ "A" := by
  decide

/-- C2 (amended). Whenever `SubmitResult` raises the token or the trust of a worker
`w`, that worker is the one named in the submission, the submission passed the
signature check, its record is in the ledger (holding the submitted output as the
`REAL` column keeps it: `==` to it, with `-0.0` kept as `+0.0`), and `Majority` is
true on the outputs on file for the task, the new one included: when none of them is
NaN, some value occurs among them at least `⌊n/2⌋ + 1` times.  Nothing is required
of the worker or of the output of the records that make up this majority. -/
theorem C2_credit_requires_majority (env : Env) (res : ResultData) (st : Store)
    (w : String) (t u : Int)
    (ht : st.tokenOf w = some t) (hu : st.trustOf w = some u)
    (hcredit : (SubmitResult env (some res) st).2.tokenOf w = some (t + 1) ∨
      (SubmitResult env (some res) st).2.trustOf w = some (u + 1)) :
    w = res.worker ∧ signatureValid env res = true ∧
      (∃ r ∈ (SubmitResult env (some res) st).2.results,
        r.id = res.id ∧ r.worker = res.worker ∧ r.output = storedReal res.output ∧
          (res.output.isNaN = false → Float64.feq r.output res.output = true)) ∧
      (Majority (selectOutputs (SubmitResult env (some res) st).2.results res.id)).1 = true ∧
      ((∀ x ∈ selectOutputs (SubmitResult env (some res) st).2.results res.id,
          x.isNaN = false) →
        ∃ v ∈ selectOutputs (SubmitResult env (some res) st).2.results res.id,
          (selectOutputs (SubmitResult env (some res) st).2.results res.id).length / 2 + 1 ≤
            occurrences v (selectOutputs (SubmitResult env (some res) st).2.results res.id)) := by
  have debit_absurd : ∀ st' : Store, st'.workers = debitTrust st.workers res.worker →
      ¬ (st'.tokenOf w = some (t + 1) ∨ st'.trustOf w = some (u + 1)) := by
    intro st' hst' h
    rw [tokenOf_debitTrust st st' _ _ hst', trustOf_debitTrust st st' _ _ hst', ht, hu] at h
    simp only [Option.map_some', Option.some.injEq] at h
    rcases h with h | h
    · omega
    · split at h <;> omega
  cases hsig : signatureValid env res with
  | false =>
    rcases SubmitResult_not_valid env res st hsig with h | h
    · rw [h, ht, hu] at hcredit
      simp only [Option.some.injEq] at hcredit
      omega
    · rw [h] at hcredit
      exact absurd hcredit (debit_absurd _ rfl)
  | true =>
    cases hmaj : (Majority (selectOutputs st.results res.id ++ [res.output])).1 with
    | false =>
      rw [SubmitResult_no_majority env res st hsig hmaj] at hcredit
      exact absurd hcredit (debit_absurd _ rfl)
    | true =>
      have hstep := SubmitResult_majority env res st hsig hmaj
      rw [hstep] at hcredit ⊢
      have hsel : selectOutputs (markResultsVerified
          (insertResult st.results res.id res.worker res.output) res.id) res.id =
          selectOutputs st.results res.id ++ [storedReal res.output] := by
        rw [selectOutputs_markResultsVerified, selectOutputs_insertResult]
      have hw : w = res.worker := by
        by_contra hne
        rw [tokenOf_creditWorker st _ res.worker w rfl,
          trustOf_creditWorker st _ res.worker w rfl, ht, hu] at hcredit
        simp only [Option.map_some', Option.some.injEq, if_neg hne] at hcredit
        omega
      refine ⟨hw, rfl, ?_, ?_, ?_⟩
      · refine ⟨⟨nextResultId st.results, res.id, res.worker, storedReal res.output, true⟩, ?_,
          rfl, rfl, rfl, (storedReal_spec res.output).1⟩
        simp [markResultsVerified, insertResult]
      · simp only [hsel, majority_storedReal]; exact hmaj
      · simp only [hsel]
        intro hnan
        exact (majority_true_iff _ hnan).1 (by rw [majority_storedReal]; exact hmaj)

/-- C2 (amended), at a first submission of `-0.0` on a fresh database: the reward comes
with a majority of one, and the record holds `+0.0`. -/
theorem C2_credit_requires_majority_witness :
    "A" = (demoSubmission "T" "A" Float64.negZero 'a').worker ∧
      signatureValid demoEnv (demoSubmission "T" "A" Float64.negZero 'a') = true ∧
      (SubmitResult demoEnv (some (demoSubmission "T" "A" Float64.negZero 'a'))
        soloStore).2.results = [⟨1, "T", "A", Float64.zero, true⟩] ∧
      (Majority (selectOutputs (SubmitResult demoEnv
        (some (demoSubmission "T" "A" Float64.negZero 'a')) soloStore).2.results
        (demoSubmission "T" "A" Float64.negZero 'a').id)).1 = true :=
  have h := C2_credit_requires_majority demoEnv (demoSubmission "T" "A" Float64.negZero 'a')
    soloStore "A" 0 10 (by decide) (by decide) (Or.inl (by decide))
  ⟨h.1, h.2.1, by decide, h.2.2.2.1⟩

/-- C3 (as stated, refuted). In the happy-quorum run the final trust of `A` and of `B`
is 11 and their token is 1, not trust 9 and token 0: the first and the second
submission are rewarded as well. -/
theorem C3_counterexample :
    quorumFinal.trustOf "A" = some 11 ∧ quorumFinal.tokenOf "A" = some 1 ∧
      quorumFinal.trustOf "B" = some 11 ∧ quorumFinal.tokenOf "B" = some 1 ∧
      quorumFinal.trustOf "A" ≠ some 9 ∧ quorumFinal.tokenOf "A" ≠ some 0 ∧
      quorumFinal.trustOf "B" ≠ some 9 ∧ quorumFinal.tokenOf "B" ≠ some 0 := by
  decide

/-- C3 (amended). Happy-quorum run: in a store without results for `T` where `A`, `B`
and `C` are three different workers with trust 10 and token 0, after `A`, then `B`,
then `C` submit a validly signed output 4.0 for `T`, each of the three has trust 11
and token 1, the task table has the same rows as before except that every row of
`T` is completed and verified, and the ledger holds three more records. -/
theorem C3_happy_quorum (env : Env) (st : Store) (T A B C : String)
    (rA rB rC : ResultData)
    (hA : signatureValid env rA = true) (hB : signatureValid env rB = true)
    (hC : signatureValid env rC = true)
    (idA : rA.id = T) (idB : rB.id = T) (idC : rC.id = T)
    (wA : rA.worker = A) (wB : rB.worker = B) (wC : rC.worker = C)
    (oA : rA.output = Float64.four) (oB : rB.output = Float64.four)
    (oC : rC.output = Float64.four)
    (hAB : A ≠ B) (hAC : A ≠ C) (hBC : B ≠ C)
    (hnone : selectOutputs st.results T = [])
    (tA : st.trustOf A = some 10) (tB : st.trustOf B = some 10) (tC : st.trustOf C = some 10)
    (kA : st.tokenOf A = some 0) (kB : st.tokenOf B = some 0) (kC : st.tokenOf C = some 0) :
    (SubmitResult env (some rC) (SubmitResult env (some rB)
        (SubmitResult env (some rA) st).2).2).2.trustOf A = some 11 ∧
      (SubmitResult env (some rC) (SubmitResult env (some rB)
        (SubmitResult env (some rA) st).2).2).2.tokenOf A = some 1 ∧
      (SubmitResult env (some rC) (SubmitResult env (some rB)
        (SubmitResult env (some rA) st).2).2).2.trustOf B = some 11 ∧
      (SubmitResult env (some rC) (SubmitResult env (some rB)
        (SubmitResult env (some rA) st).2).2).2.tokenOf B = some 1 ∧
      (SubmitResult env (some rC) (SubmitResult env (some rB)
        (SubmitResult env (some rA) st).2).2).2.trustOf C = some 11 ∧
      (SubmitResult env (some rC) (SubmitResult env (some rB)
        (SubmitResult env (some rA) st).2).2).2.tokenOf C = some 1 ∧
      (SubmitResult env (some rC) (SubmitResult env (some rB)
        (SubmitResult env (some rA) st).2).2).2.tasks =
        st.tasks.map (fun t =>
          if t.id = T then { t with completed := true, verified := true } else t) ∧
      (SubmitResult env (some rC) (SubmitResult env (some rB)
        (SubmitResult env (some rA) st).2).2).2.results.length = st.results.length + 3 := by
  subst idA wA wB wC
  have hs4 : storedReal Float64.four = Float64.four := by decide
  have e₁ := SubmitResult_majority env rA st hA (by rw [hnone, oA]; decide)
  have sel₁ : selectOutputs (SubmitResult env (some rA) st).2.results rA.id = [Float64.four] := by
    rw [e₁]
    simp only [selectOutputs_markResultsVerified, selectOutputs_insertResult, hnone, oA, hs4,
      List.nil_append]
  have e₂ := SubmitResult_majority env rB (SubmitResult env (some rA) st).2 hB
    (by rw [idB, sel₁, oB]; decide)
  have sel₂ : selectOutputs (SubmitResult env (some rB)
      (SubmitResult env (some rA) st).2).2.results rA.id = [Float64.four, Float64.four] := by
    rw [e₂]
    simp only [idB, selectOutputs_markResultsVerified, selectOutputs_insertResult, sel₁, oB,
      hs4, List.singleton_append]
  have e₃ := SubmitResult_majority env rC
    (SubmitResult env (some rB) (SubmitResult env (some rA) st).2).2 hC
    (by rw [idC, sel₂, oC]; decide)
  have hBA : rB.worker ≠ rA.worker := fun h => hAB h.symm
  have hCA : rC.worker ≠ rA.worker := fun h => hAC h.symm
  have hCB : rC.worker ≠ rB.worker := fun h => hBC h.symm
  refine ⟨?_, ?_, ?_, ?_, ?_, ?_, ?_, ?_⟩
  · rw [trustOf_creditWorker _ _ rC.worker _ (by rw [e₃]),
      trustOf_creditWorker _ _ rB.worker _ (by rw [e₂]),
      trustOf_creditWorker _ _ rA.worker _ (by rw [e₁]), tA]
    simp [hAB, hAC]
  · rw [tokenOf_creditWorker _ _ rC.worker _ (by rw [e₃]),
      tokenOf_creditWorker _ _ rB.worker _ (by rw [e₂]),
      tokenOf_creditWorker _ _ rA.worker _ (by rw [e₁]), kA]
    simp [hAB, hAC]
  · rw [trustOf_creditWorker _ _ rC.worker _ (by rw [e₃]),
      trustOf_creditWorker _ _ rB.worker _ (by rw [e₂]),
      trustOf_creditWorker _ _ rA.worker _ (by rw [e₁]), tB]
    simp [hBA, hBC]
  · rw [tokenOf_creditWorker _ _ rC.worker _ (by rw [e₃]),
      tokenOf_creditWorker _ _ rB.worker _ (by rw [e₂]),
      tokenOf_creditWorker _ _ rA.worker _ (by rw [e₁]), kB]
    simp [hBA, hBC]
  · rw [trustOf_creditWorker _ _ rC.worker _ (by rw [e₃]),
      trustOf_creditWorker _ _ rB.worker _ (by rw [e₂]),
      trustOf_creditWorker _ _ rA.worker _ (by rw [e₁]), tC]
    simp [hCA, hCB]
  · rw [tokenOf_creditWorker _ _ rC.worker _ (by rw [e₃]),
      tokenOf_creditWorker _ _ rB.worker _ (by rw [e₂]),
      tokenOf_creditWorker _ _ rA.worker _ (by rw [e₁]), kC]
    simp [hCA, hCB]
  · rw [e₃, e₂, e₁]
    simp only [finalizeTask, idB, idC, List.map_map]
    apply List.map_congr_left
    intro t _
    by_cases h : t.id = rA.id <;> simp [h]
  · rw [e₃, e₂, e₁]
    simp [markResultsVerified, insertResult]

/-- C3 (amended), at the store `quorumStore`. -/
theorem C3_happy_quorum_witness :
    quorumFinal.trustOf "A" = some 11 ∧ quorumFinal.tokenOf "A" = some 1 ∧
      quorumFinal.trustOf "B" = some 11 ∧ quorumFinal.tokenOf "B" = some 1 ∧
      quorumFinal.trustOf "C" = some 11 ∧ quorumFinal.tokenOf "C" = some 1 ∧
      quorumFinal.tasks = quorumStore.tasks.map (fun t =>
          if t.id = "T" then { t with completed := true, verified := true } else t) ∧
      quorumFinal.results.length = quorumStore.results.length + 3 :=
  C3_happy_quorum demoEnv quorumStore "T" "A" "B" "C"
    (demoSubmission "T" "A" Float64.four 'a') (demoSubmission "T" "B" Float64.four 'b')
    (demoSubmission "T" "C" Float64.four 'c')
    (by decide) (by decide) (by decide) rfl rfl rfl rfl rfl rfl rfl rfl rfl
    (by decide) (by decide) (by decide) (by decide)
    (by decide) (by decide) (by decide) (by decide) (by decide) (by decide)

/-- C4. A signature-valid submission for which `Majority` over the outputs on file
for its task id, the new one included, is true: the answer is 200; row by row, the
worker table changes only in that the row of the submitting worker (if any) has
trust and token one higher; the task table changes only in that the row with the
submitted id (if any) is completed and verified. -/
theorem C4_quorum_reached_effect (env : Env) (res : ResultData) (st : Store)
    (hsig : signatureValid env res = true)
    (hmaj : (Majority (selectOutputs st.results res.id ++ [res.output])).1 = true) :
    (SubmitResult env (some res) st).1 = 200 ∧
      List.Forall₂
        (fun w w' =>
          (w.worker_id = res.worker →
            w' = { w with trust := w.trust + 1, token := w.token + 1 }) ∧
          (w.worker_id ≠ res.worker → w' = w))
        st.workers (SubmitResult env (some res) st).2.workers ∧
      List.Forall₂
        (fun t t' =>
          (t.id = res.id → t' = { t with completed := true, verified := true }) ∧
          (t.id ≠ res.id → t' = t))
        st.tasks (SubmitResult env (some res) st).2.tasks := by
  rw [SubmitResult_majority env res st hsig hmaj]
  refine ⟨rfl, ?_, ?_⟩
  · apply forall₂_map_self
    intro w
    by_cases h : w.worker_id = res.worker <;> simp [h]
  · apply forall₂_map_self
    intro t
    by_cases h : t.id = res.id <;> simp [h]

/-- C4, at the first submission for task `T` in `quorumStore`. -/
theorem C4_quorum_reached_effect_witness :
    (SubmitResult demoEnv (some (demoSubmission "T" "A" Float64.four 'a')) quorumStore).1 = 200 ∧
      (SubmitResult demoEnv (some (demoSubmission "T" "A" Float64.four 'a')) quorumStore).2.trustOf
        "A" = some 11 ∧
      List.Forall₂
        (fun t t' =>
          (t.id = "T" → t' = { t with completed := true, verified := true }) ∧
          (t.id ≠ "T" → t' = t))
        quorumStore.tasks
        (SubmitResult demoEnv (some (demoSubmission "T" "A" Float64.four 'a')) quorumStore).2.tasks :=
  ⟨(C4_quorum_reached_effect demoEnv (demoSubmission "T" "A" Float64.four 'a') quorumStore
      (by decide) (by decide)).1,
   by decide,
   (C4_quorum_reached_effect demoEnv (demoSubmission "T" "A" Float64.four 'a') quorumStore
      (by decide) (by decide)).2.2⟩

/-- C5. A signature-valid submission for which `Majority` over the outputs on file
for its task id, the new one included, is false: the answer is 200; the ledger is the
old ledger followed by the new record with `verified = false`, which holds the
submitted output as the `REAL` column keeps it (`==` to it, bit for bit unless it is
a zero); row by row, the worker table changes only in that the row of the submitter
has trust one lower (same token); the task table is unchanged. -/
theorem C5_no_quorum_effect (env : Env) (res : ResultData) (st : Store)
    (hsig : signatureValid env res = true)
    (hmaj : (Majority (selectOutputs st.results res.id ++ [res.output])).1 = false) :
    (SubmitResult env (some res) st).1 = 200 ∧
      (∃ r : ResultRow, (SubmitResult env (some res) st).2.results = st.results ++ [r] ∧
        r.id = res.id ∧ r.worker = res.worker ∧ r.output = storedReal res.output ∧
        (res.output.isNaN = false → Float64.feq r.output res.output = true) ∧
        (res.output.isZero = false → r.output = res.output) ∧ r.verified = false) ∧
      List.Forall₂
        (fun w w' =>
          (w.worker_id = res.worker → w' = { w with trust := w.trust - 1 }) ∧
          (w.worker_id ≠ res.worker → w' = w))
        st.workers (SubmitResult env (some res) st).2.workers ∧
      (SubmitResult env (some res) st).2.tasks = st.tasks := by
  rw [SubmitResult_no_majority env res st hsig hmaj]
  refine ⟨rfl, ⟨_, rfl, rfl, rfl, rfl, (storedReal_spec res.output).1,
    (storedReal_spec res.output).2.1, rfl⟩, ?_, rfl⟩
  apply forall₂_map_self
  intro w
  by_cases h : w.worker_id = res.worker <;> simp [h]

/-- C5, at a submission of `-0.0` by `B` after `A` has submitted 4.0 for the same task:
the new record holds `+0.0`. -/
theorem C5_no_quorum_effect_witness :
    (SubmitResult demoEnv (some (demoSubmission "T" "B" Float64.negZero 'b'))
        (SubmitResult demoEnv (some (demoSubmission "T" "A" Float64.four 'a'))
          quorumStore).2).2.trustOf "B" = some 9 ∧
      (SubmitResult demoEnv (some (demoSubmission "T" "B" Float64.negZero 'b'))
        (SubmitResult demoEnv (some (demoSubmission "T" "A" Float64.four 'a'))
          quorumStore).2).2.results.map (fun r => (r.worker, r.output, r.verified)) =
        [("A", Float64.four, true), ("B", Float64.zero, false)] ∧
      (SubmitResult demoEnv (some (demoSubmission "T" "B" Float64.negZero 'b'))
        (SubmitResult demoEnv (some (demoSubmission "T" "A" Float64.four 'a'))
          quorumStore).2).2.tasks =
        (SubmitResult demoEnv (some (demoSubmission "T" "A" Float64.four 'a'))
          quorumStore).2.tasks :=
  ⟨by decide, by decide,
   (C5_no_quorum_effect demoEnv (demoSubmission "T" "B" Float64.negZero 'b')
      (SubmitResult demoEnv (some (demoSubmission "T" "A" Float64.four 'a')) quorumStore).2
      (by decide) (by decide)).2.2.2⟩

/-- C6. A submission that decodes, carries a decodable key of exactly 32 bytes and a
decodable signature, and whose Ed25519 check over the envelope fails: the answer is
401, the ledger and the task table are unchanged, and row by row the worker table
changes only in that the row of the named worker has trust one lower. -/
theorem C6_bad_signature_effect (env : Env) (res : ResultData) (st : Store)
    (pubBytes sigBytes : List Nat) (hp : env.base64Decode res.pub_key = some pubBytes)
    (hlen : pubBytes.length = 32) (hs : env.base64Decode res.signature = some sigBytes)
    (hv : ed25519Verify env pubBytes (env.marshalEnvelope res.id res.worker res.output)
      sigBytes = false) :
    (SubmitResult env (some res) st).1 = 401 ∧
      (SubmitResult env (some res) st).2.results = st.results ∧
      (SubmitResult env (some res) st).2.tasks = st.tasks ∧
      List.Forall₂
        (fun w w' =>
          (w.worker_id = res.worker → w' = { w with trust := w.trust - 1 }) ∧
          (w.worker_id ≠ res.worker → w' = w))
        st.workers (SubmitResult env (some res) st).2.workers := by
  rw [SubmitResult_bad_signature env res st pubBytes sigBytes hp hlen hs hv]
  refine ⟨rfl, rfl, rfl, ?_⟩
  apply forall₂_map_self
  intro w
  by_cases h : w.worker_id = res.worker <;> simp [h]

/-- C6, at a submission naming `A` whose signature was made under another key. -/
theorem C6_bad_signature_effect_witness :
    (SubmitResult demoEnv
        (some ⟨"T", "A", Float64.four, sigText 'x', keyText 'a', "", none⟩) quorumStore).1 = 401 ∧
      (SubmitResult demoEnv
        (some ⟨"T", "A", Float64.four, sigText 'x', keyText 'a', "", none⟩) quorumStore).2.results
        = quorumStore.results ∧
      (SubmitResult demoEnv
        (some ⟨"T", "A", Float64.four, sigText 'x', keyText 'a', "", none⟩) quorumStore).2.trustOf
        "A" = some 9 :=
  ⟨(C6_bad_signature_effect demoEnv ⟨"T", "A", Float64.four, sigText 'x', keyText 'a', "", none⟩
      quorumStore (List.replicate 32 97) (List.replicate 64 120)
      (by decide) (by decide) (by decide) (by decide)).1,
   (C6_bad_signature_effect demoEnv ⟨"T", "A", Float64.four, sigText 'x', keyText 'a', "", none⟩
      quorumStore (List.replicate 32 97) (List.replicate 64 120)
      (by decide) (by decide) (by decide) (by decide)).2.1,
   by decide⟩

/-- C7 (as stated, refuted). A signed submission of `-0.0` to `quorumStore` is accepted
and recorded, but the record does not carry the submitted double: it holds `+0.0`,
which is `==` to `-0.0` and has other bits. -/
theorem C7_counterexample :
    signatureValid demoEnv (demoSubmission "T" "A" Float64.negZero 'a') = true ∧
      (demoSubmission "T" "A" Float64.negZero 'a').output = Float64.negZero ∧
      (SubmitResult demoEnv (some (demoSubmission "T" "A" Float64.negZero 'a'))
        quorumStore).2.results.map (fun r => (r.id, r.worker, r.output)) =
        [("T", "A", Float64.zero)] ∧
      Float64.zero ≠ Float64.negZero ∧ Float64.feq Float64.zero Float64.negZero = true ∧
      ¬ ∃ r ∈ (SubmitResult demoEnv (some (demoSubmission "T" "A" Float64.negZero 'a'))
          quorumStore).2.results,
        r.output = (demoSubmission "T" "A" Float64.negZero 'a').output := by
  decide

/-- C7 (amended). A submission whose signature verifies makes the ledger exactly one
record longer: the task id, worker and output of the earlier records are unchanged
and the new, last record carries the submitted task id and worker id and the
submitted output as the `REAL` column keeps it: a value `==` to it, the same bits
unless it is a zero (`-0.0` is kept as `+0.0`). -/
theorem C7_valid_submission_appends (env : Env) (res : ResultData) (st : Store)
    (hsig : signatureValid env res = true) :
    (SubmitResult env (some res) st).2.results.length = st.results.length + 1 ∧
      (SubmitResult env (some res) st).2.results.map (fun r => (r.id, r.worker, r.output)) =
        st.results.map (fun r => (r.id, r.worker, r.output)) ++
          [(res.id, res.worker, storedReal res.output)] ∧
      (res.output.isNaN = false → Float64.feq (storedReal res.output) res.output = true) ∧
      (res.output.isZero = false → storedReal res.output = res.output) := by
  have hkey : ∀ rs : List ResultRow,
      (markResultsVerified rs res.id).map (fun r => (r.id, r.worker, r.output)) =
        rs.map (fun r => (r.id, r.worker, r.output)) := by
    intro rs
    unfold markResultsVerified
    rw [List.map_map]
    apply List.map_congr_left
    intro r _
    by_cases h : r.id = res.id <;> simp [h]
  cases hmaj : (Majority (selectOutputs st.results res.id ++ [res.output])).1 with
  | false =>
    rw [SubmitResult_no_majority env res st hsig hmaj]
    exact ⟨by simp [insertResult], by simp [insertResult], (storedReal_spec res.output).1,
      (storedReal_spec res.output).2.1⟩
  | true =>
    rw [SubmitResult_majority env res st hsig hmaj]
    refine ⟨by simp [markResultsVerified, insertResult], ?_, (storedReal_spec res.output).1,
      (storedReal_spec res.output).2.1⟩
    simp only [hkey]
    simp [insertResult]

/-- C7 (amended), at a submission of 4.0 and at a submission of `-0.0` to
`quorumStore`. -/
theorem C7_valid_submission_appends_witness :
    (SubmitResult demoEnv (some (demoSubmission "T" "A" Float64.four 'a'))
        quorumStore).2.results.map (fun r => (r.id, r.worker, r.output)) =
        [("T", "A", Float64.four)] ∧
      (SubmitResult demoEnv (some (demoSubmission "T" "A" Float64.negZero 'a'))
        quorumStore).2.results.length = quorumStore.results.length + 1 ∧
      (SubmitResult demoEnv (some (demoSubmission "T" "A" Float64.negZero 'a'))
        quorumStore).2.results.map (fun r => (r.id, r.worker, r.output)) =
        [("T", "A", Float64.zero)] :=
  ⟨by decide,
   (C7_valid_submission_appends demoEnv (demoSubmission "T" "A" Float64.negZero 'a') quorumStore
      (by decide)).1,
   by decide⟩

/-- C8 (as stated, refuted). Worker `W` registers with key `keyText 'a'` and then with
key `keyText 'b'`, which is the key the registry holds afterwards.  A submission
naming `W` that carries the first key and a signature that verifies under the first
key but not under the registered one is accepted: answer 200 and a new record. -/
theorem C8_counterexample :
    rekeyedStore.workers.map (fun w => (w.worker_id, w.pub_key)) = [("W", keyText 'b')] ∧
      keyText 'a' ≠ keyText 'b' ∧
      ed25519Verify demoEnv (List.replicate 32 ('a').toNat)
        (demoEnv.marshalEnvelope "T" "W" Float64.four) (List.replicate 64 ('a').toNat) = true ∧
      ed25519Verify demoEnv (List.replicate 32 ('b').toNat)
        (demoEnv.marshalEnvelope "T" "W" Float64.four) (List.replicate 64 ('a').toNat) = false ∧
      demoEnv.base64Decode (keyText 'b') = some (List.replicate 32 ('b').toNat) ∧
      demoEnv.base64Decode (demoSubmission "T" "W" Float64.four 'a').signature =
        some (List.replicate 64 ('a').toNat) ∧
      (SubmitResult demoEnv (some (demoSubmission "T" "W" Float64.four 'a')) rekeyedStore).1
        = 200 ∧
      (SubmitResult demoEnv (some (demoSubmission "T" "W" Float64.four 'a'))
        rekeyedStore).2.results.map (fun r => (r.id, r.worker)) = [("T", "W")] := by
  decide

/-- C8 (amended). The signature check of `SubmitResult` uses the key carried by the
submission, never the registry: a decoded submission is answered 200 exactly when
its key and signature decode, the key has 32 bytes and the signature verifies under
that key; the answer is the same in every store, so registering or re-registering
any key beforehand does not change it. -/
theorem C8_check_uses_submitted_key (env : Env) (res : ResultData) (st : Store) :
    ((SubmitResult env (some res) st).1 = 200 ↔
        ∃ pubBytes sigBytes, env.base64Decode res.pub_key = some pubBytes ∧
          pubBytes.length = 32 ∧ env.base64Decode res.signature = some sigBytes ∧
          ed25519Verify env pubBytes (env.marshalEnvelope res.id res.worker res.output)
            sigBytes = true) ∧
      (∀ st' : Store, (SubmitResult env (some res) st').1 = (SubmitResult env (some res) st).1) ∧
      (∀ reg : RegisterBody,
        (SubmitResult env (some res) (RegisterWorker env reg st).2).1 =
          (SubmitResult env (some res) st).1) := by
  have status : ∀ s : Store, (SubmitResult env (some res) s).1 =
      if signatureValid env res = true then 200
      else (SubmitResult env (some res) Store.empty).1 := by
    intro s
    cases hsig : signatureValid env res with
    | true =>
      cases hmaj : (Majority (selectOutputs s.results res.id ++ [res.output])).1 with
      | false => rw [SubmitResult_no_majority env res s hsig hmaj]; rfl
      | true => rw [SubmitResult_majority env res s hsig hmaj]; rfl
    | false =>
      simp only [Bool.false_eq_true, if_false]
      unfold signatureValid at hsig
      cases hp : env.base64Decode res.pub_key with
      | none => simp [SubmitResult, hp]
      | some pubBytes =>
        cases hs : env.base64Decode res.signature with
        | none => by_cases hlen : pubBytes.length = 32 <;> simp [SubmitResult, hp, hs, hlen]
        | some sigBytes =>
          by_cases hlen : pubBytes.length = 32
          · rw [hp, hs] at hsig
            simp only [hlen, beq_self_eq_true, Bool.true_and] at hsig
            simp [SubmitResult, hp, hs, hlen, hsig]
          · simp [SubmitResult, hp, hs, hlen]
  refine ⟨?_, ?_, ?_⟩
  · rw [← signatureValid_iff, status st]
    cases hsig : signatureValid env res with
    | true => simp
    | false =>
      simp only [Bool.false_eq_true, if_false, iff_false]
      rcases SubmitResult_not_valid env res Store.empty hsig with h | h <;> rw [h] <;> simp
  · intro st'
    rw [status st', status st]
  · intro reg
    rw [status _, status st]

/-! ## Claims on `GetTask` -/

/-- The rows `GetTask` scans are rows of the task table that satisfy the `WHERE`
clause of its query. -/
theorem mem_scan {st : Store} {order : List TaskRow}
    (horder : order.Perm (st.tasks.filter isDispatchable)) {t : TaskRow}
    (ht : t ∈ order.take 20) : t ∈ st.tasks ∧ isDispatchable t = true := by
  have := (horder.mem_iff).1 (List.mem_of_mem_take ht)
  exact List.mem_filter.1 this

theorem isDispatchable_iff (t : TaskRow) :
    isDispatchable t = true ↔ t.completed = false ∧ t.results_collected < t.redundancy := by
  simp [isDispatchable]

/-- Whatever `GetTask` answers, the store is the one it met: no statement before the
`UPDATE` writes, and the `UPDATE` is refused. -/
theorem GetTask_store (env : Env) (workerID : String) (order : List TaskRow) (st : Store) :
    (GetTask env workerID order st).2.2 = st := by
  unfold GetTask
  split
  · rfl
  · simp only
    split <;> rfl

/-- What `GetTask` does for a registered worker: when the scan splits at a first task `t`
whose requirements the worker satisfies, the answer is 200 with the columns of `t`,
and `t` is an uncompleted row with `results_collected < redundancy`; when the scan
holds no such task the answer is 204. -/
theorem GetTask_answer (env : Env) (st : Store) (workerID : String)
    (caps : List String) (order : List TaskRow)
    (hw : loadWorkerCapabilities env st workerID = some caps)
    (horder : order.Perm (st.tasks.filter isDispatchable)) :
    (∀ pre t post, order.take 20 = pre ++ t :: post →
        (∀ r ∈ pre,
          matchesCapabilities caps (parseCapabilityJSON env r.required_capabilities) = false) →
        matchesCapabilities caps (parseCapabilityJSON env t.required_capabilities) = true →
        (GetTask env workerID order st).1 = 200 ∧
          (∃ task, (GetTask env workerID order st).2.1 = some task ∧
            task.id = t.id ∧ task.operation = t.operation ∧ task.input = t.input ∧
            task.price = t.price ∧ task.kind = t.kind ∧ task.payload = t.payload ∧
            task.required_capabilities = parseCapabilityJSON env t.required_capabilities) ∧
          t ∈ st.tasks ∧ t.completed = false ∧ t.results_collected < t.redundancy) ∧
      ((∀ t ∈ order.take 20,
          matchesCapabilities caps (parseCapabilityJSON env t.required_capabilities) = false) →
        GetTask env workerID order st = (204, none, st)) := by
  constructor
  · intro pre t post hsplit hpre hm
    have hf : (order.take 20).find? (fun t =>
        matchesCapabilities caps (parseCapabilityJSON env t.required_capabilities)) = some t := by
      rw [List.find?_eq_some]
      exact ⟨hm, pre, post, hsplit, fun r hr => by simp [hpre r hr]⟩
    have hmem : t ∈ order.take 20 := by rw [hsplit]; simp
    obtain ⟨hin, hd⟩ := mem_scan horder hmem
    obtain ⟨hc, hlt⟩ := (isDispatchable_iff t).1 hd
    have hg : GetTask env workerID order st =
        (200, some (t.toTask env),
          { st with
            tasks := execWithOpenCursor st.tasks (assignTask st.tasks workerID t.id) }) := by
      simp only [GetTask, hw, hf]
    rw [hg]
    exact ⟨rfl, ⟨t.toTask env, rfl, rfl, rfl, rfl, rfl, rfl, rfl, rfl⟩, hin, hc, hlt⟩
  · intro hnone
    have hf : (order.take 20).find? (fun t =>
        matchesCapabilities caps (parseCapabilityJSON env t.required_capabilities)) = none := by
      rw [List.find?_eq_none]
      intro t ht
      simp [hnone t ht]
    simp only [GetTask, hw, hf]

/-- C11 (the code misses the claim). Worker `A` of `dispatchStore` has the capability
`math:basic`; the scan meets the task that requires `math:advanced` first and skips
it, and the answer is 200 with the columns of task `bbbbbbbbbb`, as claimed.  But the
store after the request is the store before it: `results_collected` of the task
sent is still 0 and its `assigned_to` is still empty, where the claim has 1 and
`A`. -/
theorem C11_getTask_update_lost :
    loadWorkerCapabilities demoEnv dispatchStore "A" = some ["math:basic"] ∧
      dispatchStore.tasks = [advancedRow, basicRow] ∧
      List.Perm [advancedRow, basicRow] (dispatchStore.tasks.filter isDispatchable) ∧
      matchesCapabilities ["math:basic"]
        (parseCapabilityJSON demoEnv advancedRow.required_capabilities) = false ∧
      GetTask demoEnv "A" [advancedRow, basicRow] dispatchStore =
        (200,
          some ⟨"bbbbbbbbbb", "square", Float64.four, 2, "custom", some "null", ["math:basic"]⟩,
          dispatchStore) ∧
      (GetTask demoEnv "A" [advancedRow, basicRow] dispatchStore).2.2.tasks.map
        (fun t => (t.id, t.results_collected, t.assigned_to)) =
        [("aaaaaaaaaa", 0, none), ("bbbbbbbbbb", 0, none)] ∧
      (assignTask dispatchStore.tasks "A" "bbbbbbbbbb").map
        (fun t => (t.id, t.results_collected, t.assigned_to)) =
        [("aaaaaaaaaa", 0, none), ("bbbbbbbbbb", 1, some "A")] := by
  decide

/-! ## Invariants of the task table -/

theorem taskInv_empty : TaskInv Store.empty :=
  ⟨List.nodup_nil, by simp [Store.empty], by simp [Store.empty]⟩

/-- The task table after `SubmitResult`. -/
theorem SubmitResult_tasks (env : Env) (body : Option ResultData) (st : Store) :
    (SubmitResult env body st).2.tasks = st.tasks ∨
      ∃ id, (SubmitResult env body st).2.tasks = finalizeTask st.tasks id := by
  cases body with
  | none => exact Or.inl rfl
  | some res =>
    cases hsig : signatureValid env res with
    | false =>
      rcases SubmitResult_not_valid env res st hsig with h | h <;> rw [h] <;> exact Or.inl rfl
    | true =>
      cases hmaj : (Majority (selectOutputs st.results res.id ++ [res.output])).1 with
      | false => rw [SubmitResult_no_majority env res st hsig hmaj]; exact Or.inl rfl
      | true => rw [SubmitResult_majority env res st hsig hmaj]; exact Or.inr ⟨res.id, rfl⟩

theorem taskInv_finalize {st st' : Store} (h : TaskInv st) (id : String)
    (ht : st'.tasks = finalizeTask st.tasks id) : TaskInv st' := by
  have hid : st'.tasks.map (fun t => t.id) = st.tasks.map (fun t => t.id) := by
    rw [ht, finalizeTask, List.map_map]
    apply List.map_congr_left
    intro t _
    by_cases hc : t.id = id <;> simp [hc]
  refine ⟨hid ▸ h.unique, ?_, ?_⟩
  · intro t' ht'
    rw [ht, finalizeTask, List.mem_map] at ht'
    obtain ⟨t, hmem, rfl⟩ := ht'
    by_cases hc : t.id = id <;> simpa [hc] using h.bounded t hmem
  · intro t' ht'
    rw [ht, finalizeTask, List.mem_map] at ht'
    obtain ⟨t, hmem, rfl⟩ := ht'
    by_cases hc : t.id = id
    · simp [hc]
    · simpa [hc] using h.verified t hmem

theorem taskInv_insert {st st' : Store} (h : TaskInv st) (t : TaskRow)
    (hb : 0 ≤ t.results_collected ∧ t.results_collected ≤ t.redundancy)
    (hv : t.completed = true → t.verified = true)
    (ht : st'.tasks = (insertTask st.tasks t).getD st.tasks) : TaskInv st' := by
  unfold insertTask at ht
  by_cases hany : st.tasks.any (fun r => r.id == t.id) = true
  · rw [if_pos hany] at ht
    exact ⟨by rw [ht]; exact h.unique, by rw [ht]; exact h.bounded, by rw [ht]; exact h.verified⟩
  · rw [if_neg hany] at ht
    simp only [Option.getD_some] at ht
    have hfresh : ∀ r ∈ st.tasks, r.id ≠ t.id := by
      intro r hr hid
      exact hany (List.any_eq_true.2 ⟨r, hr, by simp [hid]⟩)
    refine ⟨?_, ?_, ?_⟩
    · rw [ht, List.map_append, List.nodup_append]
      refine ⟨h.unique, by simp, ?_⟩
      intro x hx hx'
      rw [List.mem_map] at hx
      obtain ⟨r, hr, rfl⟩ := hx
      simp only [List.map_cons, List.map_nil, List.mem_singleton] at hx'
      exact hfresh r hr hx'
    · intro r hr
      rw [ht, List.mem_append, List.mem_singleton] at hr
      rcases hr with hr | rfl
      · exact h.bounded r hr
      · exact hb
    · intro r hr
      rw [ht, List.mem_append, List.mem_singleton] at hr
      rcases hr with hr | rfl
      · exact h.verified r hr
      · exact hv

theorem taskInv_generate (env : Env) (rand : Nat → GenSample) (n : Nat) :
    ∀ st : Store, TaskInv st →
      TaskInv { st with tasks := (List.range n).foldl (generateStep env rand) st.tasks } := by
  induction n with
  | zero => intro st h; simpa using h
  | succ n ih =>
    intro st h
    rw [List.range_succ, List.foldl_append]
    have h' := ih st h
    refine taskInv_insert h' (generatedRow env rand n) ?_ ?_ ?_
    · constructor <;> simp [generatedRow]
    · intro hc; simp [generatedRow] at hc
    · simp only [List.foldl_cons, List.foldl_nil, generateStep]
      split <;> simp_all

/-- Every request keeps the invariant of the task table. -/
theorem taskInv_step (env : Env) (a : Action) (st : Store) (h : TaskInv st)
    (ha : a.admissible st) : TaskInv (step env a st) := by
  cases a with
  | register body =>
    have ht : (step env (.register body) st).tasks = st.tasks := by
      simp only [step, RegisterWorker]
      split
      · rfl
      · split <;> rfl
    exact ⟨ht ▸ h.unique, ht ▸ h.bounded, ht ▸ h.verified⟩
  | getTask workerID order =>
    have hst : step env (.getTask workerID order) st = st := GetTask_store env workerID order st
    rw [hst]
    exact h
  | submitResult body =>
    rcases SubmitResult_tasks env body st with ht | ⟨id, ht⟩
    · exact ⟨by rw [step, ht]; exact h.unique, by rw [step, ht]; exact h.bounded,
        by rw [step, ht]; exact h.verified⟩
    · exact taskInv_finalize h id ht
  | createTask body id =>
    cases body with
    | none => exact h
    | some body =>
      refine taskInv_insert h (createdRow env body id) ?_ ?_ ?_
      · constructor <;> simp [createdRow]
      · intro hc; simp [createdRow] at hc
      · simp only [step, CreateTask]
        split <;> simp_all
  | generateTasks rand => exact taskInv_generate env rand 10 st h

/-- The invariant of the task table holds along every run. -/
theorem taskInv_run (env : Env) :
    ∀ (acts : List Action) (st : Store), TaskInv st → admissibleRun env acts st →
      TaskInv (run env acts st) := by
  intro acts
  induction acts with
  | nil => intro st h _; exact h
  | cons a rest ih =>
    intro st h hadm
    exact ih _ (taskInv_step env a st h hadm.1) hadm.2

theorem taskInv_reachable {env : Env} {st : Store} (h : Reachable env st) : TaskInv st := by
  obtain ⟨acts, hadm, rfl⟩ := h
  exact taskInv_run env acts _ taskInv_empty hadm

/-- C13. In every store reachable from the empty database, every completed task is
verified. -/
theorem C13_completed_implies_verified (env : Env) (st : Store) (h : Reachable env st) :
    ∀ t ∈ st.tasks, t.completed = true → t.verified = true :=
  (taskInv_reachable h).verified

/-- C13, at the store of a created task that received a signed result. -/
theorem C13_completed_implies_verified_witness :
    (run demoEnv
        [.createTask (some ⟨"square", Float64.four, 1, "", "", []⟩) "aaaaaaaaaa",
         .submitResult (some (demoSubmission "aaaaaaaaaa" "A" Float64.four 'a'))]
        Store.empty).tasks.map (fun t => (t.id, t.completed, t.verified)) =
        [("aaaaaaaaaa", true, true)] ∧
      ∀ t ∈ (run demoEnv
        [.createTask (some ⟨"square", Float64.four, 1, "", "", []⟩) "aaaaaaaaaa",
         .submitResult (some (demoSubmission "aaaaaaaaaa" "A" Float64.four 'a'))]
        Store.empty).tasks, t.completed = true → t.verified = true :=
  ⟨by decide, C13_completed_implies_verified demoEnv _ ⟨_, by decide, rfl⟩⟩

/-! ## Claims on rewards and on the ledger along runs -/

theorem countRecords_markResultsVerified (w t id : String) (results : List ResultRow) :
    countRecords w t (markResultsVerified results id) = countRecords w t results := by
  unfold countRecords markResultsVerified
  rw [List.countP_map]
  congr 1
  funext r
  by_cases h : r.id = id <;> simp [h]

theorem countRecords_insertResult (w t id worker : String) (output : Float64)
    (results : List ResultRow) :
    countRecords w t (insertResult results id worker output) =
      countRecords w t results + (if worker = w ∧ id = t then 1 else 0) := by
  unfold countRecords insertResult
  rw [List.countP_append, List.countP_cons, List.countP_nil]
  by_cases h₁ : worker = w <;> by_cases h₂ : id = t <;> simp [h₁, h₂]

theorem tokenRaised_self (w : String) (st : Store) : tokenRaised w st st = false := by
  unfold tokenRaised
  cases st.tokenOf w <;> simp

theorem tokenRaised_debit (w id : String) (st st' : Store)
    (h : st'.workers = debitTrust st.workers id) : tokenRaised w st st' = false := by
  unfold tokenRaised
  rw [tokenOf_debitTrust st st' id w h]
  cases st.tokenOf w <;> simp

/-- One request: the records of `w` for `t` never decrease, and a request that is
counted as a credit adds one. -/
theorem creditCount_step (env : Env) (w t : String) (a : Action) (st : Store) :
    creditCount env w t [a] st + countRecords w t st.results ≤
      countRecords w t (step env a st).results := by
  cases a with
  | register body =>
    have hr : (step env (.register body) st).results = st.results := by
      simp only [step, RegisterWorker]
      split
      · rfl
      · split <;> rfl
    simp [creditCount, hr]
  | getTask workerID order =>
    have hr : (step env (.getTask workerID order) st).results = st.results := by
      simp only [step, GetTask]
      split
      · rfl
      · split <;> rfl
    simp [creditCount, hr]
  | createTask body id =>
    have hr : (step env (.createTask body id) st).results = st.results := by
      simp only [step, CreateTask]
      split
      · rfl
      · split <;> rfl
    simp [creditCount, hr]
  | generateTasks rand => simp [creditCount, step, GenerateTasks]
  | submitResult body =>
    cases body with
    | none => simp [creditCount, step, SubmitResult]
    | some res =>
      simp only [creditCount, step, Nat.add_zero]
      have hdebit := tokenRaised_debit w res.worker st
        { st with workers := debitTrust st.workers res.worker } rfl
      have hdebit' := tokenRaised_debit w res.worker st
        { st with workers := debitTrust st.workers res.worker
                  results := insertResult st.results res.id res.worker res.output } rfl
      cases hsig : signatureValid env res with
      | false =>
        rcases SubmitResult_not_valid env res st hsig with h | h
        · simp only [h, tokenRaised_self]; simp
        · simp only [h, hdebit]; simp
      | true =>
        cases hmaj : (Majority (selectOutputs st.results res.id ++ [res.output])).1 with
        | false =>
          simp only [SubmitResult_no_majority env res st hsig hmaj, hdebit', Bool.false_eq_true,
            and_false, if_false, Nat.zero_add, countRecords_insertResult]
          omega
        | true =>
          simp only [SubmitResult_majority env res st hsig hmaj,
            countRecords_markResultsVerified, countRecords_insertResult]
          by_cases h : res.worker = w ∧ res.id = t
          · rw [if_pos h]
            split <;> omega
          · rw [if_neg h]
            have : ¬ (res.worker = w ∧ res.id = t ∧ tokenRaised w st
                { workers := creditWorker st.workers res.worker
                  tasks := finalizeTask st.tasks res.id
                  results := markResultsVerified
                    (insertResult st.results res.id res.worker res.output) res.id } = true) :=
              fun hh => h ⟨hh.1, hh.2.1⟩
            rw [if_neg this]
            omega

theorem creditCount_cons (env : Env) (w t : String) (a : Action) (rest : List Action)
    (st : Store) :
    creditCount env w t (a :: rest) st =
      creditCount env w t [a] st + creditCount env w t rest (step env a st) := by
  simp [creditCount]

/-- C14 (as stated, refuted). Worker `A` registers and submits the same signed output
for task `T` twice: both submissions raise its token (0 to 1 to 2), so two steps
credit `A` on account of `T`. -/
theorem C14_counterexample :
    admissibleRun demoEnv
        [.register ⟨"A", keyText 'a', []⟩,
         .submitResult (some (demoSubmission "T" "A" Float64.four 'a')),
         .submitResult (some (demoSubmission "T" "A" Float64.four 'a'))] Store.empty ∧
      creditCount demoEnv "A" "T"
        [.register ⟨"A", keyText 'a', []⟩,
         .submitResult (some (demoSubmission "T" "A" Float64.four 'a')),
         .submitResult (some (demoSubmission "T" "A" Float64.four 'a'))] Store.empty = 2 ∧
      (run demoEnv
        [.register ⟨"A", keyText 'a', []⟩,
         .submitResult (some (demoSubmission "T" "A" Float64.four 'a')),
         .submitResult (some (demoSubmission "T" "A" Float64.four 'a'))]
        Store.empty).tokenOf "A" = some 2 := by
  decide

/-- C14 (amended). Along every run and for every worker `w` and task id `t`, the number
of `SubmitResult` steps that raise the token of `w` on account of `t` is at most the
number of records `w` filed for `t` during the run: every crediting step appends
one record, and nothing bounds the count by 1. -/
theorem C14_credits_bounded_by_records (env : Env) (w t : String) (acts : List Action)
    (st : Store) :
    creditCount env w t acts st + countRecords w t st.results ≤
      countRecords w t (run env acts st).results := by
  induction acts generalizing st with
  | nil => simp [creditCount, run]
  | cons a rest ih =>
    rw [creditCount_cons, run]
    have h₁ := creditCount_step env w t a st
    have h₂ := ih (step env a st)
    omega

/-- C15 (as stated, refuted). On the empty database a signed submission naming the
id `ghost`, which was never registered, is accepted: the ledger then holds a record
naming `ghost` while the registry has no row. -/
theorem C15_counterexample :
    admissibleRun demoEnv
        [.submitResult (some (demoSubmission "T" "ghost" Float64.four 'g'))] Store.empty ∧
      (run demoEnv [.submitResult (some (demoSubmission "T" "ghost" Float64.four 'g'))]
        Store.empty).results.map (fun r => r.worker) = ["ghost"] ∧
      (run demoEnv [.submitResult (some (demoSubmission "T" "ghost" Float64.four 'g'))]
        Store.empty).workers = [] ∧
      ¬ ∀ r ∈ (run demoEnv [.submitResult (some (demoSubmission "T" "ghost" Float64.four 'g'))]
          Store.empty).results,
        ∃ w ∈ (run demoEnv [.submitResult (some (demoSubmission "T" "ghost" Float64.four 'g'))]
          Store.empty).workers, w.worker_id = r.worker := by
  decide

/-- No request removes a worker id from the registry. -/
theorem worker_kept (env : Env) (a : Action) (st : Store) (x : String)
    (h : ∃ w ∈ st.workers, w.worker_id = x) :
    ∃ w ∈ (step env a st).workers, w.worker_id = x := by
  have hmap : ∀ f : WorkerRow → WorkerRow, (∀ w, (f w).worker_id = w.worker_id) →
      ∃ w ∈ st.workers.map f, w.worker_id = x := by
    intro f hf
    obtain ⟨w, hw, hx⟩ := h
    exact ⟨f w, List.mem_map_of_mem f hw, (hf w).trans hx⟩
  cases a with
  | register body =>
    simp only [step, RegisterWorker]
    split
    · exact h
    · split
      · exact h
      · simp only [upsertWorker]
        split
        · exact hmap _ (fun w => by split <;> rfl)
        · obtain ⟨w, hw, hx⟩ := h
          exact ⟨w, List.mem_append_left _ hw, hx⟩
  | getTask workerID order =>
    simp only [step, GetTask]
    split
    · exact h
    · split <;> exact h
  | createTask body id =>
    simp only [step, CreateTask]
    split
    · exact h
    · split <;> exact h
  | generateTasks rand => exact h
  | submitResult body =>
    cases body with
    | none => exact h
    | some res =>
      simp only [step]
      cases hsig : signatureValid env res with
      | false =>
        rcases SubmitResult_not_valid env res st hsig with e | e <;> rw [e]
        · exact h
        · exact hmap _ (fun w => by split <;> rfl)
      | true =>
        cases hmaj : (Majority (selectOutputs st.results res.id ++ [res.output])).1 with
        | false =>
          rw [SubmitResult_no_majority env res st hsig hmaj]
          exact hmap _ (fun w => by split <;> rfl)
        | true =>
          rw [SubmitResult_majority env res st hsig hmaj]
          exact hmap _ (fun w => by split <;> rfl)

/-- The workers named by the ledger after a request: those named before, and the
worker of an accepted submission. -/
theorem record_origin (env : Env) (a : Action) (st : Store) (r : ResultRow)
    (hr : r ∈ (step env a st).results) :
    (∃ r₀ ∈ st.results, r₀.worker = r.worker) ∨
      ∃ res, a = .submitResult (some res) ∧ signatureValid env res = true ∧
        res.worker = r.worker := by
  cases a with
  | register body =>
    have e : (step env (.register body) st).results = st.results := by
      simp only [step, RegisterWorker]
      split
      · rfl
      · split <;> rfl
    exact Or.inl ⟨r, e ▸ hr, rfl⟩
  | getTask workerID order =>
    have e : (step env (.getTask workerID order) st).results = st.results := by
      simp only [step, GetTask]
      split
      · rfl
      · split <;> rfl
    exact Or.inl ⟨r, e ▸ hr, rfl⟩
  | createTask body id =>
    have e : (step env (.createTask body id) st).results = st.results := by
      simp only [step, CreateTask]
      split
      · rfl
      · split <;> rfl
    exact Or.inl ⟨r, e ▸ hr, rfl⟩
  | generateTasks rand => exact Or.inl ⟨r, hr, rfl⟩
  | submitResult body =>
    cases body with
    | none => exact Or.inl ⟨r, hr, rfl⟩
    | some res =>
      simp only [step] at hr
      cases hsig : signatureValid env res with
      | false =>
        rcases SubmitResult_not_valid env res st hsig with e | e <;> rw [e] at hr <;>
          exact Or.inl ⟨r, hr, rfl⟩
      | true =>
        cases hmaj : (Majority (selectOutputs st.results res.id ++ [res.output])).1 with
        | false =>
          rw [SubmitResult_no_majority env res st hsig hmaj] at hr
          simp only [insertResult, List.mem_append, List.mem_singleton] at hr
          rcases hr with hr | rfl
          · exact Or.inl ⟨r, hr, rfl⟩
          · exact Or.inr ⟨res, rfl, hsig, rfl⟩
        | true =>
          rw [SubmitResult_majority env res st hsig hmaj] at hr
          simp only [markResultsVerified, insertResult, List.mem_map, List.mem_append,
            List.mem_singleton] at hr
          obtain ⟨r₀, hr₀, rfl⟩ := hr
          rcases hr₀ with hr₀ | rfl
          · refine Or.inl ⟨r₀, hr₀, ?_⟩
            split <;> rfl
          · refine Or.inr ⟨res, rfl, hsig, ?_⟩
            split <;> rfl

theorem ledger_names_registered_run (env : Env) :
    ∀ (acts : List Action) (st : Store),
      (∀ r ∈ st.results, ∃ w ∈ st.workers, w.worker_id = r.worker) →
      submitsNameRegistered env acts st = true →
      ∀ r ∈ (run env acts st).results,
        ∃ w ∈ (run env acts st).workers, w.worker_id = r.worker := by
  intro acts
  induction acts with
  | nil => intro st h _; exact h
  | cons a rest ih =>
    intro st h hreg
    simp only [submitsNameRegistered, Bool.and_eq_true] at hreg
    refine ih (step env a st) ?_ hreg.2
    intro r hr
    rcases record_origin env a st r hr with ⟨r₀, hr₀, hw⟩ | ⟨res, rfl, hsig, hw⟩
    · exact worker_kept env a st r.worker (hw ▸ h r₀ hr₀)
    · apply worker_kept
      have := hreg.1
      simp only [hsig, Bool.not_true, Bool.false_or, List.any_eq_true, beq_iff_eq] at this
      rw [← hw]
      exact this

/-- C15 (amended). In every store reached from the empty database by a run in which
every signature-valid submission names a worker that has a registry row when it is
served, every record of the ledger names a worker with a registry row.
`SubmitResult` itself does not check this. -/
theorem C15_ledger_names_registered (env : Env) (acts : List Action)
    (hreg : submitsNameRegistered env acts Store.empty = true) :
    ∀ r ∈ (run env acts Store.empty).results,
      ∃ w ∈ (run env acts Store.empty).workers, w.worker_id = r.worker :=
  ledger_names_registered_run env acts Store.empty (by simp [Store.empty]) hreg

/-- C15 (amended), at the run in which `A` registers and then submits. -/
theorem C15_ledger_names_registered_witness :
    (run demoEnv
        [.register ⟨"A", keyText 'a', []⟩,
         .submitResult (some (demoSubmission "T" "A" Float64.four 'a'))]
        Store.empty).results.map (fun r => r.worker) = ["A"] ∧
      ∀ r ∈ (run demoEnv
        [.register ⟨"A", keyText 'a', []⟩,
         .submitResult (some (demoSubmission "T" "A" Float64.four 'a'))] Store.empty).results,
      ∃ w ∈ (run demoEnv
        [.register ⟨"A", keyText 'a', []⟩,
         .submitResult (some (demoSubmission "T" "A" Float64.four 'a'))] Store.empty).workers,
        w.worker_id = r.worker :=
  ⟨by decide, C15_ledger_names_registered demoEnv _ (by decide)⟩

/-! ## Claims on registration and task creation -/

theorem find?_upsertWorker (workers : List WorkerRow) (id pubKey capsJSON : String) :
    ∃ w, (upsertWorker workers id pubKey capsJSON).find? (fun w => w.worker_id == id) = some w ∧
      w.pub_key = pubKey ∧ w.capabilities = capsJSON := by
  unfold upsertWorker
  by_cases hany : workers.any (fun w => w.worker_id == id) = true
  · rw [if_pos hany, find?_map_worker _ (fun w => by split <;> rfl)]
    cases hf : workers.find? (fun w => w.worker_id == id) with
    | none =>
      rw [List.any_eq_true] at hany
      obtain ⟨w, hw, hid⟩ := hany
      exact absurd hid (List.find?_eq_none.1 hf w hw)
    | some w =>
      have hw := find?_worker_id hf
      exact ⟨_, rfl, by simp [hw], by simp [hw]⟩
  · rw [if_neg hany]
    have hnone : workers.find? (fun w => w.worker_id == id) = none := by
      rw [List.find?_eq_none]
      intro w hw hid
      exact hany (List.any_eq_true.2 ⟨w, hw, hid⟩)
    refine ⟨⟨id, 10, 0, pubKey, capsJSON⟩, ?_, rfl, rfl⟩
    rw [List.find?_append, hnone]
    simp

/-- C16. `RegisterWorker` with a key that decodes to 32 bytes answers 200 and leaves
tasks and results alone.  For an id without a row it appends the row
`(id, trust 10, token 0, key, capabilities)`; for an id with a row it changes, row by
row, only `pub_key` and `capabilities` of that id.  Afterwards
`loadWorkerCapabilities` returns the registered list, given that the JSON library
reads back the list it wrote and writes a non-blank text. -/
theorem C16_register_upsert (env : Env) (body : RegisterBody) (st : Store)
    (pubBytes : List Nat) (hp : env.base64Decode body.pub_key = some pubBytes)
    (hlen : pubBytes.length = 32) :
    (RegisterWorker env body st).1 = 200 ∧
      (RegisterWorker env body st).2.tasks = st.tasks ∧
      (RegisterWorker env body st).2.results = st.results ∧
      ((∀ w ∈ st.workers, w.worker_id ≠ body.worker_id) →
        (RegisterWorker env body st).2.workers =
          st.workers ++ [⟨body.worker_id, 10, 0, body.pub_key,
            env.jsonMarshalStrings body.capabilities⟩]) ∧
      ((∃ w ∈ st.workers, w.worker_id = body.worker_id) →
        List.Forall₂
          (fun w w' =>
            (w.worker_id = body.worker_id →
              w' = { w with pub_key := body.pub_key,
                            capabilities := env.jsonMarshalStrings body.capabilities }) ∧
            (w.worker_id ≠ body.worker_id → w' = w))
          st.workers (RegisterWorker env body st).2.workers) ∧
      (env.jsonUnmarshalStrings (env.jsonMarshalStrings body.capabilities) =
          some body.capabilities →
        TrimSpace (env.jsonMarshalStrings body.capabilities) ≠ "" →
        loadWorkerCapabilities env (RegisterWorker env body st).2 body.worker_id =
          some body.capabilities) := by
  have hreg : RegisterWorker env body st =
      (200, { st with
        workers := (upsertWorker st.workers body.worker_id body.pub_key
          (env.jsonMarshalStrings body.capabilities)) }) := by
    simp [RegisterWorker, hp, hlen]
  rw [hreg]
  refine ⟨rfl, rfl, rfl, ?_, ?_, ?_⟩
  · intro hnew
    have hany : ¬ st.workers.any (fun w => w.worker_id == body.worker_id) = true := by
      intro h
      rw [List.any_eq_true] at h
      obtain ⟨w, hw, hid⟩ := h
      exact hnew w hw (by simpa using hid)
    simp only [upsertWorker, if_neg hany]
  · rintro ⟨w, hw, hid⟩
    have hany : st.workers.any (fun w => w.worker_id == body.worker_id) = true :=
      List.any_eq_true.2 ⟨w, hw, by simp [hid]⟩
    simp only [upsertWorker, if_pos hany]
    apply forall₂_map_self
    intro r
    by_cases h : r.worker_id = body.worker_id <;> simp [h]
  · intro hround hblank
    obtain ⟨w, hf, _, hcaps⟩ := find?_upsertWorker st.workers body.worker_id body.pub_key
      (env.jsonMarshalStrings body.capabilities)
    have hne : env.jsonMarshalStrings body.capabilities ≠ "" := by
      intro h
      rw [h] at hblank
      exact hblank (by decide)
    simp only [loadWorkerCapabilities, hf, hcaps, parseCapabilityJSON, hround]
    simp [hne, hblank]

/-- C16, at the first and at a second registration of worker `A`. -/
theorem C16_register_upsert_witness :
    (RegisterWorker demoEnv ⟨"A", keyText 'a', ["math:basic"]⟩ Store.empty).2.workers =
        [⟨"A", 10, 0, keyText 'a', demoMarshal ["math:basic"]⟩] ∧
      loadWorkerCapabilities demoEnv
        (RegisterWorker demoEnv ⟨"A", keyText 'b', ["math:advanced", "gpu"]⟩ quorumFinal).2 "A" =
        some ["math:advanced", "gpu"] ∧
      (RegisterWorker demoEnv ⟨"A", keyText 'b', ["math:advanced", "gpu"]⟩ quorumFinal).2.trustOf
        "A" = some 11 :=
  ⟨(C16_register_upsert demoEnv ⟨"A", keyText 'a', ["math:basic"]⟩ Store.empty
      (List.replicate 32 97) (by decide) (by decide)).2.2.2.1 (by decide),
   (C16_register_upsert demoEnv ⟨"A", keyText 'b', ["math:advanced", "gpu"]⟩ quorumFinal
      (List.replicate 32 98) (by decide) (by decide)).2.2.2.2.2 (by decide) (by decide),
   by decide⟩

/-- C17 (as stated, refuted). In a store that holds a task with id `aaaaaaaaaa`, a
`CreateTask` whose body decodes and whose `RandomString(10)` draw is `aaaaaaaaaa` again
answers 500 and adds no task. -/
theorem C17_counterexample :
    isRandomString 10 "aaaaaaaaaa" = true ∧
      createdStore.tasks.map (fun t => t.id) = ["aaaaaaaaaa"] ∧
      CreateTask demoEnv (some ⟨"factorial", Float64.five, 1, "", "", []⟩) "aaaaaaaaaa"
        createdStore = (500, none, createdStore) := by
  decide

/-- C17 (amended). Create-then-list: for every decoded task spec and every drawn id (10
characters of the alphabet) that no stored task has, `CreateTask` answers 201 with
that id and appends one row; the overview of the new store is the overview of the
old one followed by an entry with that id, not completed, not verified, not
assigned, one remaining slot (redundancy 1), kind `custom` when the spec has no kind
and the kind of the spec otherwise, and the price of the spec or 0 when that is
negative. -/
theorem C17_create_then_list (env : Env) (body : CreateBody) (id : String) (st : Store)
    (hid : isRandomString 10 id = true) (hfresh : ∀ t ∈ st.tasks, t.id ≠ id) :
    (CreateTask env (some body) id st).1 = 201 ∧
      (CreateTask env (some body) id st).2.1 = some id ∧
      id.length = 10 ∧ (∀ c ∈ id.data, c.isAlphanum = true) ∧
      (CreateTask env (some body) id st).2.2.tasks.length = st.tasks.length + 1 ∧
      (CreateTask env (some body) id st).2.2.workers = st.workers ∧
      (CreateTask env (some body) id st).2.2.results = st.results ∧
      ∃ e : TaskOverview,
        TasksOverview env (CreateTask env (some body) id st).2.2 =
          TasksOverview env st ++ [e] ∧
        e.id = id ∧ e.completed = false ∧ e.verified = false ∧ e.assigned_to = none ∧
        e.remaining_slots = 1 ∧ (createdRow env body id).redundancy = 1 ∧
        e.kind = (if body.kind = "" then "custom" else body.kind) ∧
        e.price = max 0 body.price ∧ e.operation = body.operation := by
  have hany : ¬ st.tasks.any (fun r => r.id == (createdRow env body id).id) = true := by
    intro h
    rw [List.any_eq_true] at h
    obtain ⟨t, ht, hid'⟩ := h
    exact hfresh t ht (by simpa [createdRow] using hid')
  have hc : CreateTask env (some body) id st =
      (201, some id, { st with tasks := st.tasks ++ [createdRow env body id] }) := by
    simp only [CreateTask, insertTask, if_neg hany]
  simp only [isRandomString, Bool.and_eq_true, beq_iff_eq, List.all_eq_true] at hid
  have halnum : ∀ c ∈ letters, c.isAlphanum = true := by decide
  rw [hc]
  refine ⟨rfl, rfl, hid.1, ?_, by simp, rfl, rfl, (createdRow env body id).overview env, ?_,
    rfl, rfl, rfl, rfl, ?_, rfl, ?_, ?_, rfl⟩
  · intro c hc'
    exact halnum c (by simpa using hid.2 c hc')
  · simp [TasksOverview]
  · simp [TaskRow.overview, createdRow]
  · simp [TaskRow.overview, createdRow]
  · simp only [TaskRow.overview, createdRow]
    by_cases hp : body.price < 0
    · rw [if_pos hp]; omega
    · rw [if_neg hp]; omega

/-- C17 (amended), at a second task created with a fresh id and a negative price. -/
theorem C17_create_then_list_witness :
    (CreateTask demoEnv (some ⟨"factorial", Float64.five, -3, "", "", []⟩) "bbbbbbbbbb"
        createdStore).1 = 201 ∧
      (TasksOverview demoEnv (CreateTask demoEnv
        (some ⟨"factorial", Float64.five, -3, "", "", []⟩) "bbbbbbbbbb" createdStore).2.2).map
        (fun e => (e.id, e.kind, e.price, e.remaining_slots)) =
        [("aaaaaaaaaa", "custom", 5, 1), ("bbbbbbbbbb", "custom", 0, 1)] ∧
      (TasksOverview demoEnv (CreateTask demoEnv
        (some ⟨"factorial", Float64.five, -3, "", "", []⟩) "bbbbbbbbbb" createdStore).2.2).map
        (fun e => (e.id, e.completed, e.verified, e.assigned_to)) =
        [("aaaaaaaaaa", false, false, none), ("bbbbbbbbbb", false, false, none)] :=
  ⟨(C17_create_then_list demoEnv ⟨"factorial", Float64.five, -3, "", "", []⟩ "bbbbbbbbbb"
      createdStore (by decide) (by decide)).1, by decide, by decide⟩

/-! ## Claims on malformed submissions and on the uniqueness of the majority -/

/-- C18 (as stated, refuted). A submission naming worker `A` with a key of 31 bytes (and
a signature of 64 bytes) is answered 400, not 401, and the trust of `A` stays 10. -/
theorem C18_counterexample :
    demoEnv.base64Decode shortKeySubmission.pub_key = some (List.replicate 31 97) ∧
      (SubmitResult demoEnv (some shortKeySubmission) quorumStore).1 = 400 ∧
      quorumStore.trustOf "A" = some 10 ∧
      (SubmitResult demoEnv (some shortKeySubmission) quorumStore).2.trustOf "A" = some 10 := by
  decide

/-- C18 (amended). A submission whose key decodes to 32 bytes and whose signature
decodes to a number of bytes other than 64 does not verify: the answer is 401, ledger
and tasks are unchanged and, row by row, only the named worker loses one trust.  A
submission whose key does not decode, or decodes to a number of bytes other than 32,
is answered 400 and changes nothing. -/
theorem C18_malformed_key_or_signature (env : Env) (res : ResultData) (st : Store) :
    (∀ pubBytes sigBytes, env.base64Decode res.pub_key = some pubBytes →
        pubBytes.length = 32 → env.base64Decode res.signature = some sigBytes →
        sigBytes.length ≠ 64 →
        signatureValid env res = false ∧
          (SubmitResult env (some res) st).1 = 401 ∧
          (SubmitResult env (some res) st).2.results = st.results ∧
          (SubmitResult env (some res) st).2.tasks = st.tasks ∧
          List.Forall₂
            (fun w w' =>
              (w.worker_id = res.worker → w' = { w with trust := w.trust - 1 }) ∧
              (w.worker_id ≠ res.worker → w' = w))
            st.workers (SubmitResult env (some res) st).2.workers) ∧
      ((env.base64Decode res.pub_key = none ∨
          ∃ pubBytes, env.base64Decode res.pub_key = some pubBytes ∧ pubBytes.length ≠ 32) →
        signatureValid env res = false ∧ SubmitResult env (some res) st = (400, st)) := by
  constructor
  · intro pubBytes sigBytes hp hlen hs hsig
    have hv : ed25519Verify env pubBytes (env.marshalEnvelope res.id res.worker res.output)
        sigBytes = false := by
      simp [ed25519Verify, hsig]
    rw [SubmitResult_bad_signature env res st pubBytes sigBytes hp hlen hs hv]
    refine ⟨?_, rfl, rfl, rfl, ?_⟩
    · simp [signatureValid, hp, hs, hv]
    · apply forall₂_map_self
      intro w
      by_cases h : w.worker_id = res.worker <;> simp [h]
  · rintro (hp | ⟨pubBytes, hp, hlen⟩)
    · constructor
      · simp [signatureValid, hp]
      · simp [SubmitResult, hp]
    · constructor
      · unfold signatureValid
        rw [hp]
        cases env.base64Decode res.signature <;> simp [hlen]
      · simp [SubmitResult, hp, hlen]

/-- C18 (amended), at a submission with a 63-byte signature and at one with a 31-byte
key, both naming worker `A` of `quorumStore`. -/
theorem C18_malformed_key_or_signature_witness :
    (SubmitResult demoEnv (some shortSigSubmission) quorumStore).1 = 401 ∧
      (SubmitResult demoEnv (some shortSigSubmission) quorumStore).2.trustOf "A" = some 9 ∧
      SubmitResult demoEnv (some shortKeySubmission) quorumStore = (400, quorumStore) :=
  ⟨((C18_malformed_key_or_signature demoEnv shortSigSubmission quorumStore).1
      (List.replicate 32 97) (List.replicate 63 97)
      (by decide) (by decide) (by decide) (by decide)).2.1,
   by decide,
   ((C18_malformed_key_or_signature demoEnv shortKeySubmission quorumStore).2
      (Or.inr ⟨List.replicate 31 97, by decide, by decide⟩)).2⟩

/-- Two values that are not `==` cannot both be equal to an entry, so their numbers of
occurrences add up to at most the length of the list. -/
theorem occurrences_add_le (v w : Float64) (h : Float64.feq v w = false) (S : List Float64) :
    occurrences v S + occurrences w S ≤ S.length := by
  induction S with
  | nil => simp [occurrences]
  | cons x S ih =>
    unfold occurrences at ih ⊢
    rw [List.countP_cons, List.countP_cons, List.length_cons]
    by_cases hv : Float64.feq x v = true
    · by_cases hw : Float64.feq x w = true
      · have := Float64.feq_trans (Float64.feq_symm hv) hw
        rw [h] at this; cases this
      · have hw' : Float64.feq x w = false := by simpa using hw
        simp only [hv, hw', if_true, Bool.false_eq_true, if_false]; omega
    · have hv' : Float64.feq x v = false := by simpa using hv
      by_cases hw : Float64.feq x w = true
      · simp only [hv', hw, if_true, Bool.false_eq_true, if_false]; omega
      · have hw' : Float64.feq x w = false := by simpa using hw
        simp only [hv', hw', Bool.false_eq_true, if_false]; omega

/-- At most one value reaches the quorum. -/
theorem quorum_unique (S : List Float64) (v w : Float64)
    (hv : S.length / 2 + 1 ≤ occurrences v S) (hw : S.length / 2 + 1 ≤ occurrences w S) :
    Float64.feq v w = true := by
  cases h : Float64.feq v w with
  | true => rfl
  | false =>
    have := occurrences_add_le v w h S
    omega

theorem scanCounts_of_none (need : Nat) (m : List (Float64 × Nat))
    (h : ∀ e ∈ m, ¬ need ≤ e.2) : scanCounts need m = (false, Float64.zero) := by
  induction m with
  | nil => rfl
  | cons e rest ih =>
    obtain ⟨k, c⟩ := e
    have hc : ¬ c ≥ need := h (k, c) (List.mem_cons_self _ _)
    simp only [scanCounts, hc, if_false]
    exact ih (fun e he => h e (List.mem_cons_of_mem _ he))

theorem scanCounts_of_unique (need : Nat) (m : List (Float64 × Nat)) (e : Float64 × Nat)
    (he : e ∈ m) (hle : need ≤ e.2) (huniq : ∀ e' ∈ m, need ≤ e'.2 → e' = e) :
    scanCounts need m = (true, e.1) := by
  induction m with
  | nil => cases he
  | cons x rest ih =>
    obtain ⟨k, c⟩ := x
    by_cases hc : c ≥ need
    · have := huniq (k, c) (List.mem_cons_self _ _) hc
      subst this
      simp only [scanCounts, hc, if_true]
    · simp only [scanCounts, hc, if_false]
      rcases List.mem_cons.1 he with rfl | he'
      · exact absurd hle hc
      · exact ih he' (fun e' he'' => huniq e' (List.mem_cons_of_mem _ he''))

theorem scanCounts_false_snd (need : Nat) (m : List (Float64 × Nat))
    (h : (scanCounts need m).1 = false) : (scanCounts need m).2 = Float64.zero := by
  induction m with
  | nil => rfl
  | cons e rest ih =>
    obtain ⟨k, c⟩ := e
    by_cases hc : c ≥ need
    · simp [scanCounts, hc] at h
    · simp only [scanCounts, hc, if_false] at h ⊢
      exact ih h

theorem scanCounts_eq_true (need : Nat) (m : List (Float64 × Nat)) (v : Float64)
    (h : scanCounts need m = (true, v)) : ∃ e ∈ m, e.1 = v ∧ need ≤ e.2 := by
  induction m with
  | nil => simp [scanCounts] at h
  | cons e rest ih =>
    obtain ⟨k, c⟩ := e
    by_cases hc : c ≥ need
    · simp only [scanCounts, hc, if_true, Prod.mk.injEq, true_and] at h
      exact ⟨(k, c), List.mem_cons_self _ _, h, hc⟩
    · simp only [scanCounts, hc, if_false] at h
      obtain ⟨e, he, hev, hle⟩ := ih h
      exact ⟨e, List.mem_cons_of_mem _ he, hev, hle⟩

/-- In the map built on a list without NaN at most one entry reaches the quorum. -/
theorem countMap_entry_unique (S : List Float64) (hS : ∀ x ∈ S, x.isNaN = false)
    (e e' : Float64 × Nat) (he : e ∈ countMap S) (he' : e' ∈ countMap S)
    (hle : S.length / 2 + 1 ≤ e.2) (hle' : S.length / 2 + 1 ≤ e'.2) : e' = e := by
  have inv := countInv_countMap S hS
  by_contra hne
  have hsym : Symmetric (fun a b : Float64 × Nat => Float64.feq a.1 b.1 = false) := by
    intro a b hab
    rw [Float64.feq_comm]; exact hab
  have hd := inv.distinct.forall hsym he' he hne
  have h₁ := (inv.counted e he).2.2
  have h₂ := (inv.counted e' he').2.2
  have := quorum_unique S e'.1 e.1 (h₂ ▸ hle') (h₁ ▸ hle)
  rw [hd] at this; cases this

/-- C19. On a list `S` without NaN at most one value (up to `==`) occurs at least
`⌊|S|/2⌋ + 1` times; whatever the order in which the second loop of `Majority` visits
the entries of the map, the answer is the same; an answer `(true, v)` gives a value
of `S` that reaches the quorum and is `==` to every value that does; and a false
answer comes with the value 0. -/
theorem C19_majority_deterministic (S : List Float64) (hS : ∀ x ∈ S, x.isNaN = false) :
    (∀ v w, S.length / 2 + 1 ≤ occurrences v S → S.length / 2 + 1 ≤ occurrences w S →
        Float64.feq v w = true) ∧
      (∀ entries : List (Float64 × Nat), entries.Perm (countMap S) →
        scanCounts (S.length / 2 + 1) entries = Majority S) ∧
      (∀ v, Majority S = (true, v) →
        v ∈ S ∧ S.length / 2 + 1 ≤ occurrences v S ∧
          ∀ w, S.length / 2 + 1 ≤ occurrences w S → Float64.feq w v = true) ∧
      ((Majority S).1 = false → (Majority S).2 = Float64.zero) := by
  have inv := countInv_countMap S hS
  refine ⟨quorum_unique S, ?_, ?_, ?_⟩
  · intro entries hperm
    unfold Majority
    by_cases hex : ∃ e ∈ countMap S, S.length / 2 + 1 ≤ e.2
    · obtain ⟨e, he, hle⟩ := hex
      have huniq : ∀ e' ∈ countMap S, S.length / 2 + 1 ≤ e'.2 → e' = e :=
        fun e' he' hle' => countMap_entry_unique S hS e e' he he' hle hle'
      rw [scanCounts_of_unique _ _ e he hle huniq,
        scanCounts_of_unique _ _ e ((hperm.mem_iff).2 he) hle
          (fun e' he' => huniq e' ((hperm.mem_iff).1 he'))]
    · have hnone : ∀ e ∈ countMap S, ¬ S.length / 2 + 1 ≤ e.2 :=
        fun e he hle => hex ⟨e, he, hle⟩
      rw [scanCounts_of_none _ _ hnone,
        scanCounts_of_none _ _ (fun e he => hnone e ((hperm.mem_iff).1 he))]
  · intro v hv
    obtain ⟨e, he, hev, hle⟩ := scanCounts_eq_true _ _ v hv
    obtain ⟨hmem, _, hcnt⟩ := inv.counted e he
    subst hev
    have hocc : S.length / 2 + 1 ≤ occurrences e.1 S := hcnt ▸ hle
    exact ⟨hmem, hocc, fun w hw => quorum_unique S w e.1 hw hocc⟩
  · exact scanCounts_false_snd _ _

/-- C19, at the list `[4.0, 5.0, 4.0]` with the map visited in reverse order. -/
theorem C19_majority_deterministic_witness :
    scanCounts ([Float64.four, Float64.five, Float64.four].length / 2 + 1)
        [(Float64.five, 1), (Float64.four, 2)] =
      Majority [Float64.four, Float64.five, Float64.four] ∧
      Majority [Float64.four, Float64.five, Float64.four] = (true, Float64.four) ∧
      Majority [Float64.four, Float64.five] = (false, Float64.zero) :=
  ⟨(C19_majority_deterministic [Float64.four, Float64.five, Float64.four] (by decide)).2.1
      [(Float64.five, 1), (Float64.four, 2)] (by decide),
   by decide, by decide⟩

/-! ## Claims on the first result of a task id -/

theorem Majority_singleton (x : Float64) : Majority [x] = (true, x) := by
  simp [Majority, countMap, countIncr, scanCounts]

/-- C20. `SubmitResult` does not look at the task table before accepting: a
signature-valid submission for an id without records in the ledger finds the
majority of one on the one output then on file, is answered 200, appends its record
marked verified (holding the submitted output as the `REAL` column keeps it: `==` to
it, the same bits unless it is a zero), and credits the row of the submitter with one
trust and one token; every task row with that id becomes completed and verified
whatever its redundancy, and when no task has that id the task table is unchanged. -/
theorem C20_first_result_is_quorum (env : Env) (res : ResultData) (st : Store)
    (hsig : signatureValid env res = true) (hfirst : selectOutputs st.results res.id = []) :
    selectOutputs (SubmitResult env (some res) st).2.results res.id = [storedReal res.output] ∧
      Majority [storedReal res.output] = (true, storedReal res.output) ∧
      (res.output.isNaN = false → Float64.feq (storedReal res.output) res.output = true) ∧
      (res.output.isZero = false → storedReal res.output = res.output) ∧
      (SubmitResult env (some res) st).1 = 200 ∧
      (SubmitResult env (some res) st).2.results =
        st.results ++
          [⟨nextResultId st.results, res.id, res.worker, storedReal res.output, true⟩] ∧
      List.Forall₂
        (fun w w' =>
          (w.worker_id = res.worker →
            w' = { w with trust := w.trust + 1, token := w.token + 1 }) ∧
          (w.worker_id ≠ res.worker → w' = w))
        st.workers (SubmitResult env (some res) st).2.workers ∧
      List.Forall₂
        (fun t t' =>
          (t.id = res.id → t' = { t with completed := true, verified := true }) ∧
          (t.id ≠ res.id → t' = t))
        st.tasks (SubmitResult env (some res) st).2.tasks ∧
      ((∀ t ∈ st.tasks, t.id ≠ res.id) → (SubmitResult env (some res) st).2.tasks = st.tasks) := by
  have hmaj : (Majority (selectOutputs st.results res.id ++ [res.output])).1 = true := by
    rw [hfirst, List.nil_append, Majority_singleton]
  have hold : ∀ r ∈ st.results, r.id ≠ res.id := by
    intro r hr hid
    have hmem : r.output ∈ selectOutputs st.results res.id := by
      unfold selectOutputs
      exact List.mem_map_of_mem _ (List.mem_filter.2 ⟨hr, by simp [hid]⟩)
    rw [hfirst] at hmem
    cases hmem
  rw [SubmitResult_majority env res st hsig hmaj]
  refine ⟨?_, Majority_singleton _, (storedReal_spec res.output).1,
    (storedReal_spec res.output).2.1, rfl, ?_, ?_, ?_, ?_⟩
  · rw [selectOutputs_markResultsVerified, selectOutputs_insertResult, hfirst, List.nil_append]
  · simp only [markResultsVerified, insertResult, List.map_append, List.map_cons, List.map_nil,
      beq_self_eq_true, if_true]
    congr 1
    conv_rhs => rw [← List.map_id st.results]
    apply List.map_congr_left
    intro r hr
    simp [hold r hr]
  · apply forall₂_map_self
    intro w
    by_cases h : w.worker_id = res.worker <;> simp [h]
  · apply forall₂_map_self
    intro t
    by_cases h : t.id = res.id <;> simp [h]
  · intro hno
    show finalizeTask st.tasks res.id = st.tasks
    unfold finalizeTask
    conv_rhs => rw [← List.map_id st.tasks]
    apply List.map_congr_left
    intro t ht
    simp [hno t ht]

/-- C20, at a submission of `-0.0` by `A` for the id `nowhere`, which names no task of
`quorumStore`: the record holds `+0.0`. -/
theorem C20_first_result_is_quorum_witness :
    (SubmitResult demoEnv (some (demoSubmission "nowhere" "A" Float64.negZero 'a'))
        quorumStore).2.results = [⟨1, "nowhere", "A", Float64.zero, true⟩] ∧
      (SubmitResult demoEnv (some (demoSubmission "nowhere" "A" Float64.negZero 'a'))
        quorumStore).2.tasks = quorumStore.tasks ∧
      (SubmitResult demoEnv (some (demoSubmission "nowhere" "A" Float64.negZero 'a'))
        quorumStore).2.tokenOf "A" = some 1 :=
  ⟨by decide,
   (C20_first_result_is_quorum demoEnv (demoSubmission "nowhere" "A" Float64.negZero 'a')
      quorumStore (by decide) (by decide)).2.2.2.2.2.2.2.2 (by decide),
   by decide⟩

/-! ## Claims on the reward of a dissenting submission -/

/-- C21. The reward of `SubmitResult` looks at the majority alone, not at the output
submitted: when the outputs on file for the task together with the new output (none
of them NaN) have a value `v` that occurs at least `⌊n/2⌋ + 1` times, a
signature-valid submission whose output is not `==` to `v` is answered 200, the row
of the submitter gains one trust and one token, the ledger is one record longer, and
every record of that task is marked verified, the new record included, whose output
(the submitted one as the `REAL` column keeps it, `==` to it) is not `==` to `v`. -/
theorem C21_reward_ignores_own_output (env : Env) (res : ResultData) (st : Store)
    (v : Float64) (hsig : signatureValid env res = true)
    (hnan : ∀ x ∈ selectOutputs st.results res.id ++ [res.output], x.isNaN = false)
    (hv : (selectOutputs st.results res.id ++ [res.output]).length / 2 + 1 ≤
      occurrences v (selectOutputs st.results res.id ++ [res.output]))
    (hdiff : Float64.feq res.output v = false) :
    (SubmitResult env (some res) st).1 = 200 ∧
      List.Forall₂
        (fun w w' =>
          (w.worker_id = res.worker →
            w' = { w with trust := w.trust + 1, token := w.token + 1 }) ∧
          (w.worker_id ≠ res.worker → w' = w))
        st.workers (SubmitResult env (some res) st).2.workers ∧
      (SubmitResult env (some res) st).2.results.length = st.results.length + 1 ∧
      (∀ r ∈ (SubmitResult env (some res) st).2.results, r.id = res.id → r.verified = true) ∧
      (∃ r ∈ (SubmitResult env (some res) st).2.results,
        r.id = res.id ∧ r.worker = res.worker ∧ r.output = storedReal res.output ∧
          Float64.feq r.output res.output = true ∧
          Float64.feq r.output v = false ∧ r.verified = true) := by
  have hpos : 0 < List.countP (fun x => Float64.feq x v)
      (selectOutputs st.results res.id ++ [res.output]) := by
    unfold occurrences at hv
    omega
  obtain ⟨x, hx, hxv⟩ := List.countP_pos_iff.1 hpos
  have hmaj : (Majority (selectOutputs st.results res.id ++ [res.output])).1 = true :=
    (majority_true_iff _ hnan).2 ⟨x, hx, by rw [occurrences_congr hxv]; exact hv⟩
  rw [SubmitResult_majority env res st hsig hmaj]
  refine ⟨rfl, ?_, by simp [markResultsVerified, insertResult], ?_, ?_⟩
  · apply forall₂_map_self
    intro w
    by_cases h : w.worker_id = res.worker <;> simp [h]
  · intro r hr hid
    simp only [markResultsVerified, List.mem_map] at hr
    obtain ⟨r₀, _, rfl⟩ := hr
    by_cases h : r₀.id = res.id
    · simp [h]
    · simp [h] at hid
  · refine ⟨⟨nextResultId st.results, res.id, res.worker, storedReal res.output, true⟩, ?_,
      rfl, rfl, rfl, (storedReal_spec res.output).1 (hnan _ (by simp)), ?_, rfl⟩
    · simp [markResultsVerified, insertResult]
    · show Float64.feq (storedReal res.output) v = false
      rw [feq_storedReal_left]; exact hdiff

/-- C21, at a submission of 5.0 by `C` after `A` and `B` have submitted 4.0 for `T`;
a dissenting `-0.0` is rewarded and recorded (as `+0.0`) in the same way. -/
theorem C21_reward_ignores_own_output_witness :
    selectOutputs twoFoursStore.results "T" = [Float64.four, Float64.four] ∧
      (SubmitResult demoEnv (some (demoSubmission "T" "C" Float64.five 'c')) twoFoursStore).1
        = 200 ∧
      twoFoursStore.trustOf "C" = some 10 ∧ twoFoursStore.tokenOf "C" = some 0 ∧
      (SubmitResult demoEnv (some (demoSubmission "T" "C" Float64.five 'c'))
        twoFoursStore).2.trustOf "C" = some 11 ∧
      (SubmitResult demoEnv (some (demoSubmission "T" "C" Float64.five 'c'))
        twoFoursStore).2.tokenOf "C" = some 1 ∧
      (SubmitResult demoEnv (some (demoSubmission "T" "C" Float64.five 'c'))
        twoFoursStore).2.results.map (fun r => (r.worker, r.output, r.verified)) =
        [("A", Float64.four, true), ("B", Float64.four, true), ("C", Float64.five, true)] ∧
      (SubmitResult demoEnv (some (demoSubmission "T" "C" Float64.negZero 'c'))
        twoFoursStore).2.results.map (fun r => (r.worker, r.output, r.verified)) =
        [("A", Float64.four, true), ("B", Float64.four, true), ("C", Float64.zero, true)] ∧
      (SubmitResult demoEnv (some (demoSubmission "T" "C" Float64.negZero 'c'))
        twoFoursStore).2.tokenOf "C" = some 1 :=
  ⟨by decide,
   (C21_reward_ignores_own_output demoEnv (demoSubmission "T" "C" Float64.five 'c')
      twoFoursStore Float64.four (by decide) (by decide) (by decide) (by decide)).1,
   by decide, by decide, by decide, by decide, by decide, by decide, by decide⟩

end Coordinator
